import Mathlib

/-!
# Storage bridge of `src/index.js`

A shallow embedding of the start-up script `src/index.js` and of the two port
handlers it installs, together with the parts of the JavaScript platform the
script calls: `localStorage` (`getItem`, `setItem`, `removeItem`),
`JSON.stringify` and `JSON.parse`.

Conventions of the embedding.

* A JavaScript string is the list of its UTF-16 code units (`JSString`).
* A JSON value is `JSON`.  A number is kept in the decimal form in which
  `Number::toString` describes it (digits `s`, their count `k`, and the
  position `n` of the decimal point), so that no binary floating point
  arithmetic is needed: `JSON.parse` rounds a literal to the nearest double
  with exact integer arithmetic and gives the digits of that double.  An
  object is the list of its properties in enumeration order.
* `localStorage` is an ordered list of key/value entries with the update rules
  of the Web Storage interface; the storage quota and a disabled storage are
  not modelled, so `getItem`, `setItem` and `removeItem` always return.
* `document.getElementById`, `Elm.Main.init`, `subscribe` and
  `registerServiceWorker` are collaborators outside the script: each call is
  recorded and taken to return normally.  The effects of loading the three
  imported modules come before the module body and are not part of it.
* Every call the script or a handler makes is recorded, in order, in a trace.
-/

namespace StorageBridge

/-! ## Strings -/

/-- A JavaScript string: the list of its UTF-16 code units. -/
abbrev JSString := List Nat

/-- The code units of a string literal whose characters are all in the Basic
Multilingual Plane. -/
def lit (s : String) : JSString := s.toList.map Char.toNat

/-! ## JSON values -/

/-- A JavaScript number.  `nan` is `NaN`, `inf neg` is `Infinity` or
`-Infinity`, `zero neg` is `+0` or `-0`; `dec neg ds n` is the number with
sign `neg`, significant decimal digits `ds` (most significant first) and value
`0.ds × 10 ^ n`, which are the `s`, `k = ds.length` and `n` of
`Number::toString`. -/
inductive JNum where
  | nan
  | inf (neg : Bool)
  | zero (neg : Bool)
  | dec (neg : Bool) (ds : List Nat) (n : Int)
  deriving DecidableEq, Repr

/-- A JSON value.  An object is the list of its members in enumeration
order. -/
inductive JSON where
  | null
  | bool (b : Bool)
  | num (x : JNum)
  | str (s : JSString)
  | arr (xs : List JSON)
  | obj (kvs : List (JSString × JSON))
  deriving Repr

/-! ## `JSON.stringify` -/

/-- The lower-case hexadecimal digit for a value below sixteen. -/
def hexDigit (d : Nat) : Nat := if d < 10 then 48 + d else 87 + d

/-- `UnicodeEscape`: a backslash, `u` and four lower-case hexadecimal
digits. -/
def unicodeEscape (c : Nat) : JSString :=
  [92, 117, hexDigit (c / 4096 % 16), hexDigit (c / 256 % 16),
    hexDigit (c / 16 % 16), hexDigit (c % 16)]

/-- A leading (high) surrogate code unit. -/
def isHighSurrogate (c : Nat) : Bool := decide (55296 ≤ c ∧ c ≤ 56319)

/-- A trailing (low) surrogate code unit. -/
def isLowSurrogate (c : Nat) : Bool := decide (56320 ≤ c ∧ c ≤ 57343)

/-- The body of `QuoteJSONString`: the two-character escapes for backspace,
tab, line feed, form feed, carriage return, the quote and the backslash; a
`UnicodeEscape` for the other control characters and for lone surrogates;
every other code point as it is. -/
def quoteBody : JSString → JSString
  | [] => []
  | c :: rest =>
    if c = 8 then 92 :: 98 :: quoteBody rest
    else if c = 9 then 92 :: 116 :: quoteBody rest
    else if c = 10 then 92 :: 110 :: quoteBody rest
    else if c = 12 then 92 :: 102 :: quoteBody rest
    else if c = 13 then 92 :: 114 :: quoteBody rest
    else if c = 34 then 92 :: 34 :: quoteBody rest
    else if c = 92 then 92 :: 92 :: quoteBody rest
    else if c < 32 then unicodeEscape c ++ quoteBody rest
    else if isHighSurrogate c then
      match rest with
      | [] => unicodeEscape c
      | d :: rest2 =>
        if isLowSurrogate d then c :: d :: quoteBody rest2
        else unicodeEscape c ++ quoteBody (d :: rest2)
    else if isLowSurrogate c then unicodeEscape c ++ quoteBody rest
    else c :: quoteBody rest

/-- `QuoteJSONString`. -/
def quoteJSONString (s : JSString) : JSString := 34 :: (quoteBody s ++ [34])

/-- Decimal digits of a natural number, most significant first, with an
explicit bound on the number of digits produced. -/
def natDigitsAux : Nat → Nat → List Nat → List Nat
  | 0, _, acc => acc
  | fuel + 1, m, acc =>
    if m < 10 then m :: acc else natDigitsAux fuel (m / 10) (m % 10 :: acc)

/-- Decimal digits of a natural number, most significant first. -/
def natDigits (m : Nat) : List Nat := natDigitsAux (m + 1) m []

/-- The code units of a list of decimal digits. -/
def digitChars (ds : List Nat) : JSString := ds.map (fun d => 48 + d)

/-- `Number::toString` in radix ten for a positive number with digits `ds`
and decimal point position `n`. -/
def positiveToString (ds : List Nat) (n : Int) : JSString :=
  let k : Int := ds.length
  if k ≤ n ∧ n ≤ 21 then
    digitChars ds ++ List.replicate (n - k).toNat 48
  else if 0 < n ∧ n ≤ 21 then
    digitChars (ds.take n.toNat) ++ 46 :: digitChars (ds.drop n.toNat)
  else if -6 < n ∧ n ≤ 0 then
    48 :: 46 :: (List.replicate (-n).toNat 48 ++ digitChars ds)
  else
    let e : Int := n - 1
    let expo : JSString :=
      101 :: (if e < 0 then 45 else 43) :: digitChars (natDigits e.natAbs)
    match ds with
    | [] => expo
    | [d] => (48 + d) :: expo
    | d :: more => (48 + d) :: 46 :: (digitChars more ++ expo)

/-- `Number::toString` in radix ten: `NaN`, `Infinity` with its sign, `0` for
both zeros, and the decimal form of the other numbers. -/
def numberToString : JNum → JSString
  | .nan => [78, 97, 78]
  | .inf neg =>
    if neg then [45, 73, 110, 102, 105, 110, 105, 116, 121]
    else [73, 110, 102, 105, 110, 105, 116, 121]
  | .zero _ => [48]
  | .dec neg ds n => if neg then 45 :: positiveToString ds n else positiveToString ds n

/-- A number other than `NaN`, `Infinity` and `-Infinity`. -/
def JNum.isFinite : JNum → Bool
  | .nan => false
  | .inf _ => false
  | _ => true

mutual
/-- `SerializeJSONProperty` for a JSON value, without indentation.  A number
that is not finite is written `null`. -/
def serialize : JSON → JSString
  | .null => [110, 117, 108, 108]
  | .bool true => [116, 114, 117, 101]
  | .bool false => [102, 97, 108, 115, 101]
  | .num x => if x.isFinite then numberToString x else [110, 117, 108, 108]
  | .str s => quoteJSONString s
  | .arr [] => [91, 93]
  | .arr (x :: xs) => 91 :: (serialize x ++ serializeElements xs)
  | .obj [] => [123, 125]
  | .obj ((k, v) :: kvs) =>
    123 :: (quoteJSONString k ++ 58 :: (serialize v ++ serializeMembers kvs))
/-- The remaining elements of an array, each after a comma, and the closing
bracket. -/
def serializeElements : List JSON → JSString
  | [] => [93]
  | x :: xs => 44 :: (serialize x ++ serializeElements xs)
/-- The remaining members of an object, each after a comma, and the closing
brace. -/
def serializeMembers : List (JSString × JSON) → JSString
  | [] => [125]
  | (k, v) :: kvs =>
    44 :: (quoteJSONString k ++ 58 :: (serialize v ++ serializeMembers kvs))
end

/-- `JSON.stringify(value)` for a JSON value. -/
def JSON.stringify (v : JSON) : JSString := serialize v

/-! ## `JSON.parse` -/

/-- The error `JSON.parse` throws on a text that is not JSON. -/
inductive JSError where
  | syntaxError
  deriving DecidableEq, Repr

/-- JSON white space: tab, line feed, carriage return and space. -/
def isWS (c : Nat) : Bool := c = 9 || c = 10 || c = 13 || c = 32

/-- Skip leading JSON white space. -/
def skipWS : JSString → JSString
  | [] => []
  | c :: rest => if isWS c then skipWS rest else c :: rest

/-- A decimal digit. -/
def isDigit (c : Nat) : Bool := decide (48 ≤ c ∧ c ≤ 57)

/-- The longest run of decimal digits at the front of a text, as digit
values, and the text after it. -/
def takeDigits : JSString → List Nat × JSString
  | [] => ([], [])
  | c :: rest =>
    if isDigit c then ((c - 48) :: (takeDigits rest).1, (takeDigits rest).2)
    else ([], c :: rest)

/-- The natural number written by a list of decimal digits. -/
def digitsValue (ds : List Nat) : Nat := ds.foldl (fun a d => 10 * a + d) 0

/-- The value of a hexadecimal digit, in either case. -/
def hexValue (c : Nat) : Option Nat :=
  if 48 ≤ c ∧ c ≤ 57 then some (c - 48)
  else if 97 ≤ c ∧ c ≤ 102 then some (c - 87)
  else if 65 ≤ c ∧ c ≤ 70 then some (c - 55)
  else none

/-- The code unit denoted by the character after a backslash, for the
two-character escapes. -/
def escapeValue (e : Nat) : Option Nat :=
  if e = 34 then some 34
  else if e = 92 then some 92
  else if e = 47 then some 47
  else if e = 98 then some 8
  else if e = 102 then some 12
  else if e = 110 then some 10
  else if e = 114 then some 13
  else if e = 116 then some 9
  else none

/-- The characters of a JSON string after its opening quote, up to and
including the closing quote: the string denoted and the text that follows. -/
def parseStringBody : JSString → Option (JSString × JSString)
  | [] => none
  | c :: rest =>
    if c = 34 then some ([], rest)
    else if c = 92 then
      match rest with
      | [] => none
      | e :: rest2 =>
        if e = 117 then
          match rest2 with
          | h1 :: h2 :: h3 :: h4 :: rest3 =>
            match hexValue h1, hexValue h2, hexValue h3, hexValue h4 with
            | some a, some b, some c3, some d =>
              match parseStringBody rest3 with
              | some (s, r) => some ((a * 4096 + b * 256 + c3 * 16 + d) :: s, r)
              | none => none
            | _, _, _, _ => none
          | _ => none
        else
          match escapeValue e with
          | some u =>
            match parseStringBody rest2 with
            | some (s, r) => some (u :: s, r)
            | none => none
          | none => none
    else if c < 32 then none
    else
      match parseStringBody rest with
      | some (s, r) => some (c :: s, r)
      | none => none

/-- The integer part of a JSON number: a single `0`, or a non-zero digit
followed by digits. -/
def parseInt : JSString → Option (List Nat × JSString)
  | [] => none
  | c :: rest =>
    if c = 48 then some ([0], rest)
    else if isDigit c then some ((c - 48) :: (takeDigits rest).1, (takeDigits rest).2)
    else none

/-- The optional fraction of a JSON number: a point and at least one digit. -/
def parseFrac : JSString → Option (List Nat × JSString)
  | [] => some ([], [])
  | c :: rest =>
    if c = 46 then
      if (takeDigits rest).1 = [] then none else some (takeDigits rest)
    else some ([], c :: rest)

/-- At least one digit, read as an exponent of the given sign. -/
def parseExpDigits (negative : Bool) (cs : JSString) : Option (Int × JSString) :=
  if (takeDigits cs).1 = [] then none
  else
    some (if negative then -(digitsValue (takeDigits cs).1 : Int)
          else (digitsValue (takeDigits cs).1 : Int), (takeDigits cs).2)

/-- The optional exponent of a JSON number: `e` or `E`, an optional sign and
at least one digit. -/
def parseExp : JSString → Option (Int × JSString)
  | [] => some (0, [])
  | c :: rest =>
    if c = 101 ∨ c = 69 then
      match rest with
      | [] => none
      | s :: rest2 =>
        if s = 43 then parseExpDigits false rest2
        else if s = 45 then parseExpDigits true rest2
        else parseExpDigits false (s :: rest2)
    else some (0, c :: rest)

/-- Remove the zeros at the end of a digit list. -/
def stripTrailingZeros (ds : List Nat) : List Nat :=
  (ds.reverse.dropWhile (fun d => d = 0)).reverse

/-- The result of rounding a positive real number to a double: zero, a finite
double `m × 2 ^ e` (with `2 ^ 52 ≤ m < 2 ^ 53` and `-1074 ≤ e ≤ 971`, or
`m < 2 ^ 52` and `e = -1074`), or an overflow. -/
inductive Rounded where
  | zero
  | finite (m : Nat) (e : Int)
  | overflow
  deriving DecidableEq, Repr

/-- The floor of the binary logarithm of a positive natural number, with an
explicit bound on the number of halvings. -/
def log2Aux : Nat → Nat → Nat
  | 0, _ => 0
  | fuel + 1, m => if m < 2 then 0 else log2Aux fuel (m / 2) + 1

/-- The floor of the binary logarithm of a positive natural number. -/
def floorLog2 (m : Nat) : Nat := log2Aux m m

/-- Round to the nearest integer, ties to even, the quotient of two natural
numbers. -/
def roundHalfEven (num den : Nat) : Nat :=
  let q := num / den
  let r := num % den
  if den < 2 * r then q + 1
  else if 2 * r = den then (if q % 2 = 0 then q else q + 1)
  else q

/-- Round the positive rational number `N / M` to the nearest double, ties to
even: the binary exponent is that of the number, at least `-1074`; a
significand rounded up to `2 ^ 53` moves to the next exponent; an exponent
above `971` is an overflow. -/
def roundRatio (N M : Nat) : Rounded :=
  let l0 : Int := (floorLog2 N : Int) - (floorLog2 M : Int)
  let atLeast : Bool :=
    if 0 ≤ l0 then decide (M * 2 ^ l0.toNat ≤ N) else decide (M ≤ N * 2 ^ (-l0).toNat)
  let l : Int := if atLeast then l0 else l0 - 1
  let e : Int := if l - 52 < -1074 then -1074 else l - 52
  let m : Nat :=
    if 0 ≤ e then roundHalfEven N (M * 2 ^ e.toNat) else roundHalfEven (N * 2 ^ (-e).toNat) M
  if m = 0 then Rounded.zero
  else if m = 2 ^ 53 then
    (if 971 < e + 1 then Rounded.overflow else Rounded.finite (2 ^ 52) (e + 1))
  else if 971 < e then Rounded.overflow
  else Rounded.finite m e

/-- Round the decimal number `d × 10 ^ x` to the nearest double. -/
def roundDecimal (d : Nat) (x : Int) : Rounded :=
  if 0 ≤ x then roundRatio (d * 10 ^ x.toNat) 1 else roundRatio d (10 ^ (-x).toNat)

/-- The position `n` of the decimal point of the positive rational number
`N / M`: `10 ^ (n - 1) ≤ N / M < 10 ^ n`. -/
def pointPosition (N M : Nat) : Int :=
  let n0 : Int :=
    if M ≤ N then ((natDigits (N / M)).length : Int)
    else 1 - ((natDigits (M / N)).length : Int)
  -- `N / M < 10 ^ n0` always; step down when `N / M < 10 ^ (n0 - 1)`
  let below : Bool :=
    if 0 ≤ n0 - 1 then decide (N < M * 10 ^ (n0 - 1).toNat)
    else decide (N * 10 ^ (1 - n0).toNat < M)
  if below then n0 - 1 else n0

/-- The digits `s`, as a number, and the point position of the `k`-digit
decimal number nearest to `N / M`, when it rounds to the double `m × 2 ^ e`;
of the two `k`-digit neighbours of `N / M` the nearer one is preferred, and
the even one when both are as near. -/
def nearestDigits (N M m : Nat) (e : Int) (n : Int) (k : Nat) : Option (Nat × Int) :=
  let num : Nat := if 0 ≤ (k : Int) - n then N * 10 ^ ((k : Int) - n).toNat else N
  let den : Nat := if 0 ≤ (k : Int) - n then M else M * 10 ^ (n - (k : Int)).toNat
  let lo : Nat := num / den
  let r : Nat := num % den
  let hi : Nat × Int := if lo + 1 = 10 ^ k then (10 ^ (k - 1), n + 1) else (lo + 1, n)
  let okLo : Bool := decide (roundDecimal lo (n - k) = Rounded.finite m e)
  let okHi : Bool := decide (roundDecimal hi.1 (hi.2 - k) = Rounded.finite m e)
  let preferLo : Bool := decide (2 * r < den) || (decide (2 * r = den) && decide (lo % 2 = 0))
  if okLo && (preferLo || !okHi) then some (lo, n)
  else if okHi then some hi
  else none

/-- The shortest digits that round to the double `m × 2 ^ e`, trying `k`,
`k + 1`, ... digits; with the bound used up, the nearest `k`-digit number. -/
def shortestFrom (N M m : Nat) (e : Int) (n : Int) : Nat → Nat → Nat × Int
  | 0, k => ((if 0 ≤ (k : Int) - n then N * 10 ^ ((k : Int) - n).toNat / M
      else N / (M * 10 ^ (n - (k : Int)).toNat)), n)
  | fuel + 1, k =>
    match nearestDigits N M m e n k with
    | some r => r
    | none => shortestFrom N M m e n fuel (k + 1)

/-- The digits and the point position `Number::toString` gives the positive
double `m × 2 ^ e`: the fewest digits that round to it, at most seventeen. -/
def shortestDigits (m : Nat) (e : Int) : List Nat × Int :=
  let N : Nat := if 0 ≤ e then m * 2 ^ e.toNat else m
  let M : Nat := if 0 ≤ e then 1 else 2 ^ (-e).toNat
  let r := shortestFrom N M m e (pointPosition N M) 17 1
  (stripTrailingZeros (natDigits r.1), r.2)

/-- The number a decimal literal with sign `neg`, digits `ds` and point
position `n` denotes: the double nearest to it, given by the digits
`Number::toString` uses; `0` or `-0` when it rounds to zero, an infinity when
it overflows. -/
def roundNum (neg : Bool) (ds : List Nat) (n : Int) : JNum :=
  match roundDecimal (digitsValue ds) (n - ds.length) with
  | Rounded.zero => JNum.zero neg
  | Rounded.overflow => JNum.inf neg
  | Rounded.finite m e => JNum.dec neg (shortestDigits m e).1 (shortestDigits m e).2

/-- The number denoted by the sign, the integer digits `ip`, the fraction
digits `fp` and the exponent `e`: the literal is brought to its significant
digits and point position and rounded to the nearest double.  A literal of
zero value keeps its sign. -/
def mkNum (neg : Bool) (ip fp : List Nat) (e : Int) : JNum :=
  let all := ip ++ fp
  let sig := all.dropWhile (fun d => d = 0)
  if sig = [] then JNum.zero neg
  else roundNum neg (stripTrailingZeros sig)
    ((ip.length : Int) + e - ((all.length - sig.length : Nat) : Int))

/-- A JSON number without its sign. -/
def parseUnsigned (neg : Bool) (cs : JSString) : Option (JNum × JSString) :=
  match parseInt cs with
  | none => none
  | some (ip, cs2) =>
    match parseFrac cs2 with
    | none => none
    | some (fp, cs3) =>
      match parseExp cs3 with
      | none => none
      | some (e, cs4) => some (mkNum neg ip fp e, cs4)

/-- A JSON number. -/
def parseNumber : JSString → Option (JNum × JSString)
  | [] => none
  | c :: rest => if c = 45 then parseUnsigned true rest else parseUnsigned false (c :: rest)

/-- The array index a property name denotes, if it is one: the name is the
decimal numeral, without leading zero, of an integer below `2 ^ 32 - 1`. -/
def arrayIndex : JSString → Option Nat
  | [] => none
  | c :: rest =>
    if c = 48 then (if rest = [] then some 0 else none)
    else if isDigit c && rest.all isDigit then
      (if digitsValue ((c :: rest).map (fun u => u - 48)) < 4294967295 then
        some (digitsValue ((c :: rest).map (fun u => u - 48)))
      else none)
    else none

/-- `CreateDataProperty` on an ordinary object, given as the list of its
properties in creation order: a property that exists keeps its place and
takes the new value, a new property is added at the end. -/
def defineProperty : List (JSString × JSON) → JSString → JSON → List (JSString × JSON)
  | [], key, value => [(key, value)]
  | (k, v) :: rest, key, value =>
    if k = key then (key, value) :: rest else (k, v) :: defineProperty rest key value

/-- Insert a property with array index `i` into properties sorted by array
index. -/
def insertByIndex (i : Nat) (e : JSString × JSON) :
    List (JSString × JSON) → List (JSString × JSON)
  | [] => [e]
  | f :: rest =>
    match arrayIndex f.1 with
    | some j => if i < j then e :: f :: rest else f :: insertByIndex i e rest
    | none => e :: f :: rest

/-- The properties whose names are array indices, in ascending order of
index. -/
def indexedProperties : List (JSString × JSON) → List (JSString × JSON)
  | [] => []
  | e :: rest =>
    match arrayIndex e.1 with
    | some i => insertByIndex i e (indexedProperties rest)
    | none => indexedProperties rest

/-- The properties whose names are not array indices, in creation order. -/
def namedProperties : List (JSString × JSON) → List (JSString × JSON)
  | [] => []
  | e :: rest =>
    match arrayIndex e.1 with
    | some _ => namedProperties rest
    | none => e :: namedProperties rest

/-- The object `JSON.parse` builds from the members of an object literal, as
the list of its properties in enumeration order: each member defines a
property, a repeated name keeping its place and taking the last value; array
indices are enumerated first, in ascending order, then the other names in
creation order. -/
def objectOf (members : List (JSString × JSON)) : List (JSString × JSON) :=
  let created := members.foldl (fun o m => defineProperty o m.1 m.2) []
  indexedProperties created ++ namedProperties created

/-- Remove the given code units from the front of a text, if they are there. -/
def expect : JSString → JSString → Option JSString
  | [], cs => some cs
  | _ :: _, [] => none
  | p :: ps, c :: cs => if p = c then expect ps cs else none

mutual
/-- A JSON value, with white space allowed before it.  The first argument
bounds the depth of the recursion. -/
def parseValue : Nat → JSString → Option (JSON × JSString)
  | 0, _ => none
  | fuel + 1, cs =>
    match skipWS cs with
    | [] => none
    | c :: rest =>
      if c = 110 then (expect [117, 108, 108] rest).map (fun r => (JSON.null, r))
      else if c = 116 then (expect [114, 117, 101] rest).map (fun r => (JSON.bool true, r))
      else if c = 102 then
        (expect [97, 108, 115, 101] rest).map (fun r => (JSON.bool false, r))
      else if c = 34 then (parseStringBody rest).map (fun p => (JSON.str p.1, p.2))
      else if c = 91 then
        match skipWS rest with
        | [] => none
        | d :: rest2 =>
          if d = 93 then some (JSON.arr [], rest2)
          else (parseElements fuel (d :: rest2)).map (fun p => (JSON.arr p.1, p.2))
      else if c = 123 then
        match skipWS rest with
        | [] => none
        | d :: rest2 =>
          if d = 125 then some (JSON.obj [], rest2)
          else
            (parseMembers fuel (d :: rest2)).map (fun p => (JSON.obj (objectOf p.1), p.2))
      else (parseNumber (c :: rest)).map (fun p => (JSON.num p.1, p.2))
/-- The elements of a non-empty array, up to and including the closing
bracket. -/
def parseElements : Nat → JSString → Option (List JSON × JSString)
  | 0, _ => none
  | fuel + 1, cs =>
    match parseValue fuel cs with
    | none => none
    | some (v, r) =>
      match skipWS r with
      | [] => none
      | d :: r2 =>
        if d = 44 then (parseElements fuel r2).map (fun p => (v :: p.1, p.2))
        else if d = 93 then some ([v], r2)
        else none
/-- The members of a non-empty object as written, up to and including the
closing brace. -/
def parseMembers : Nat → JSString → Option (List (JSString × JSON) × JSString)
  | 0, _ => none
  | fuel + 1, cs =>
    match skipWS cs with
    | [] => none
    | q :: r0 =>
      if q = 34 then
        match parseStringBody r0 with
        | none => none
        | some (k, r1) =>
          match skipWS r1 with
          | [] => none
          | col :: r2 =>
            if col = 58 then
              match parseValue fuel r2 with
              | none => none
              | some (v, r3) =>
                match skipWS r3 with
                | [] => none
                | d :: r4 =>
                  if d = 44 then (parseMembers fuel r4).map (fun p => ((k, v) :: p.1, p.2))
                  else if d = 125 then some ([(k, v)], r4)
                  else none
            else none
      else none
end

/-- `JSON.parse(text)`: the value a JSON text denotes, or a `SyntaxError`.
The recursion is bounded by the length of the text; a larger bound reads no
more texts (`JSON.parse_of_parseValue`). -/
def JSON.parse (text : JSString) : Except JSError JSON :=
  match parseValue (text.length + 1) text with
  | none => Except.error JSError.syntaxError
  | some (v, r) =>
    if skipWS r = [] then Except.ok v else Except.error JSError.syntaxError

/-! ## `localStorage` -/

/-- The state of `localStorage`: its entries, in order. -/
abbrev Storage := List (JSString × JSString)

namespace localStorage

/-- `localStorage.getItem(key)`: the value of the entry under `key`, or
`none` for JavaScript `null` when there is no such entry. -/
def getItem : Storage → JSString → Option JSString
  | [], _ => none
  | (k, v) :: rest, key => if k = key then some v else getItem rest key

/-- `localStorage.setItem(key, value)`: replace the value of the entry under
`key`, or add a new entry at the end. -/
def setItem : Storage → JSString → JSString → Storage
  | [], key, value => [(key, value)]
  | (k, v) :: rest, key, value =>
    if k = key then (key, value) :: rest else (k, v) :: setItem rest key value

/-- `localStorage.removeItem(key)`: delete the entry under `key`, if any. -/
def removeItem (store : Storage) (key : JSString) : Storage :=
  store.filter (fun e => decide (e.1 ≠ key))

end localStorage

/-! ## The script -/

/-- The two outgoing ports of the Elm application. -/
inductive Port where
  | setStorage
  | removeStorage
  deriving DecidableEq, Repr

/-- A call made by the script or by one of its handlers. -/
inductive Call where
  | getItem (key : JSString)
  | setItem (key value : JSString)
  | removeItem (key : JSString)
  | jsonParse (text : JSString)
  | jsonStringify (value : JSON)
  | getElementById (id : JSString)
  | elmMainInit (flags : JSON)
  | subscribe (port : Port)
  | registerServiceWorker

/-- What a piece of the script leaves behind: the storage, the calls it made
in order, and its result. -/
structure Outcome (α : Type) where
  storage : Storage
  calls : List Call
  result : α

/-- The key `"model"`. -/
def modelKey : JSString := lit "model"

/-- The element id `"root"`. -/
def rootId : JSString := lit "root"

/-- JavaScript truthiness of the result of `getItem`: `null` and the empty
string are falsy, every other string is truthy. -/
def truthy : Option JSString → Bool
  | none => false
  | some [] => false
  | some (_ :: _) => true

/-- Lines 9 to 22 of the script: `Elm.Main.init` on the element `root` with
the flags, the two subscriptions, and `registerServiceWorker()`. -/
def startApp (flags : JSON) : List Call :=
  [Call.getElementById rootId, Call.elmMainInit flags,
    Call.subscribe Port.setStorage, Call.subscribe Port.removeStorage,
    Call.registerServiceWorker]

/-- The module body of `src/index.js`: line 5 reads the entry, line 7 decodes
it when it is truthy (an exception of `JSON.parse` ends the script there),
lines 9 to 22 start the application.  The result is the flags the application
was started with, or the error that ended the script. -/
def startup (store : Storage) : Outcome (Except JSError JSON) :=
  let storedState := localStorage.getItem store modelKey
  if truthy storedState then
    match storedState with
    | some text =>
      match JSON.parse text with
      | Except.ok startingState =>
        ⟨store, Call.getItem modelKey :: Call.jsonParse text :: startApp startingState,
          Except.ok startingState⟩
      | Except.error err =>
        ⟨store, [Call.getItem modelKey, Call.jsonParse text], Except.error err⟩
    | none => ⟨store, Call.getItem modelKey :: startApp JSON.null, Except.ok JSON.null⟩
  else ⟨store, Call.getItem modelKey :: startApp JSON.null, Except.ok JSON.null⟩

/-- The handler subscribed to the port `setStorage`. -/
def setStorageHandler (state : JSON) (store : Storage) : Outcome Unit :=
  ⟨localStorage.setItem store modelKey (JSON.stringify state),
    [Call.jsonStringify state, Call.setItem modelKey (JSON.stringify state)], ()⟩

/-- The handler subscribed to the port `removeStorage`. -/
def removeStorageHandler (store : Storage) : Outcome Unit :=
  ⟨localStorage.removeItem store modelKey, [Call.removeItem modelKey], ()⟩

/-- A signal sent by the running application through one of its ports. -/
inductive Signal where
  | setStorage (state : JSON)
  | removeStorage

/-- The handler a signal reaches. -/
def handle : Signal → Storage → Outcome Unit
  | Signal.setStorage state, store => setStorageHandler state store
  | Signal.removeStorage, store => removeStorageHandler store

/-- Handling a sequence of signals, one after the other. -/
def handleAll : List Signal → Storage → Outcome Unit
  | [], store => ⟨store, [], ()⟩
  | sig :: sigs, store =>
    let o := handle sig store
    let o2 := handleAll sigs o.storage
    ⟨o2.storage, o.calls ++ o2.calls, ()⟩

/-- A run of the page: the script, and then, when the script has registered
the handlers, the signals of the application. -/
def run (store : Storage) (sigs : List Signal) : Outcome (Except JSError JSON) :=
  let o := startup store
  match o.result with
  | Except.ok flags =>
    let o2 := handleAll sigs o.storage
    ⟨o2.storage, o.calls ++ o2.calls, Except.ok flags⟩
  | Except.error err => ⟨o.storage, o.calls, Except.error err⟩

/-- The flags `Elm.Main.init` was called with, for each such call. -/
def initFlags : List Call → List JSON
  | [] => []
  | Call.elmMainInit flags :: rest => flags :: initFlags rest
  | _ :: rest => initFlags rest

/-! ## Well-formed values and the ends of tokens -/

/-- A number that JSON can write: it is finite, and its digits are those
`Number::toString` uses for a double: at least one digit, each below ten, the
first and the last not zero, and they are the shortest digits of the double
they round to. -/
def JNum.wf : JNum → Bool
  | JNum.nan => false
  | JNum.inf _ => false
  | JNum.zero _ => true
  | JNum.dec neg ds n =>
    ds.all (fun d => decide (d < 10)) && ds.head? != some 0 && ds.getLast? != some 0
      && !ds.isEmpty && decide (roundNum neg ds n = JNum.dec neg ds n)

/-- Array indices come first and ascend, the other names follow: the order in
which the names of an object are enumerated. -/
def indexOrder : List JSString → Bool
  | [] => true
  | [_] => true
  | k1 :: k2 :: rest =>
    (match arrayIndex k1, arrayIndex k2 with
      | some i, some j => decide (i < j)
      | none, some _ => false
      | _, none => true) && indexOrder (k2 :: rest)

/-- The names of the properties of an object, in enumeration order: no name
twice, array indices first and ascending. -/
def enumerationOrder (keys : List JSString) : Bool :=
  decide keys.Nodup && indexOrder keys

mutual
/-- A JSON-serializable value: every number in it is finite and has digits in
the form `Number::toString` uses, and every object in it lists its properties
in enumeration order. -/
def JSON.wf : JSON → Bool
  | JSON.num x => x.wf
  | JSON.arr xs => wfElements xs
  | JSON.obj kvs => enumerationOrder (kvs.map Prod.fst) && wfMembers kvs
  | _ => true
/-- Every element is well formed. -/
def wfElements : List JSON → Bool
  | [] => true
  | x :: xs => x.wf && wfElements xs
/-- Every member value is well formed. -/
def wfMembers : List (JSString × JSON) → Bool
  | [] => true
  | (_, v) :: kvs => v.wf && wfMembers kvs
end

/-- The number with the sign of a zero dropped: `-0` becomes `+0`. -/
def JNum.plusZero : JNum → JNum
  | JNum.zero _ => JNum.zero false
  | x => x

mutual
/-- The value with every `-0` in it replaced by `+0`. -/
def JSON.plusZero : JSON → JSON
  | JSON.num x => JSON.num x.plusZero
  | JSON.arr xs => JSON.arr (plusZeroElements xs)
  | JSON.obj kvs => JSON.obj (plusZeroMembers kvs)
  | v => v
/-- The elements with every `-0` replaced by `+0`. -/
def plusZeroElements : List JSON → List JSON
  | [] => []
  | x :: xs => x.plusZero :: plusZeroElements xs
/-- The members with every `-0` replaced by `+0`. -/
def plusZeroMembers : List (JSString × JSON) → List (JSString × JSON)
  | [] => []
  | (k, v) :: kvs => (k, v.plusZero) :: plusZeroMembers kvs
end

mutual
/-- No number in the value is `-0`. -/
def JSON.negZeroFree : JSON → Bool
  | JSON.num (JNum.zero neg) => !neg
  | JSON.arr xs => negZeroFreeElements xs
  | JSON.obj kvs => negZeroFreeMembers kvs
  | _ => true
/-- No number in the elements is `-0`. -/
def negZeroFreeElements : List JSON → Bool
  | [] => true
  | x :: xs => x.negZeroFree && negZeroFreeElements xs
/-- No number in the member values is `-0`. -/
def negZeroFreeMembers : List (JSString × JSON) → Bool
  | [] => true
  | (_, v) :: kvs => v.negZeroFree && negZeroFreeMembers kvs
end

/-- The text after a run of digits does not go on with a digit. -/
def DigitsEnd (rest : JSString) : Prop := ∀ c r, rest = c :: r → isDigit c = false

/-- The text after a number does not go on with a digit, a point or an
exponent mark. -/
def NumEnd (rest : JSString) : Prop :=
  ∀ c r, rest = c :: r → isDigit c = false ∧ c ≠ 46 ∧ c ≠ 101 ∧ c ≠ 69


/-! ## Observations on a trace -/

/-- The keys read from storage, for each `getItem` call. -/
def reads : List Call → List JSString
  | [] => []
  | Call.getItem key :: rest => key :: reads rest
  | _ :: rest => reads rest

/-- The calls that change storage: the `setItem` and `removeItem` calls. -/
def mutations : List Call → List Call
  | [] => []
  | Call.setItem key value :: rest => Call.setItem key value :: mutations rest
  | Call.removeItem key :: rest => Call.removeItem key :: mutations rest
  | _ :: rest => mutations rest

/-- The effect of a single call on storage: `setItem` and `removeItem` change
it, no other call does. -/
def applyCall : Storage → Call → Storage
  | store, Call.setItem key value => localStorage.setItem store key value
  | store, Call.removeItem key => localStorage.removeItem store key
  | store, _ => store

/-- The one change of storage a signal stands for. -/
def signalEffect : Signal → Call
  | Signal.setStorage state => Call.setItem modelKey (JSON.stringify state)
  | Signal.removeStorage => Call.removeItem modelKey

/-! ## Lemmas

### Strings -/

theorem hexValue_hexDigit (d : Nat) (h : d < 16) : hexValue (hexDigit d) = some d := by
  unfold hexDigit hexValue
  split
  · simp; omega
  · have h1 : ¬ (48 ≤ 87 + d ∧ 87 + d ≤ 57) := by omega
    have h2 : (97 ≤ 87 + d ∧ 87 + d ≤ 102) := by omega
    rw [if_neg h1, if_pos h2]
    congr 1
    omega

theorem psb_quote (rest : JSString) : parseStringBody (34 :: rest) = some ([], rest) := by
  rw [parseStringBody.eq_def]; simp

theorem psb_plain (c : Nat) (rest : JSString) (h1 : c ≠ 34) (h2 : c ≠ 92) (h3 : ¬ c < 32) :
    parseStringBody (c :: rest) =
      match parseStringBody rest with
      | some (s, r) => some (c :: s, r)
      | none => none := by
  rw [parseStringBody.eq_def]; simp [h1, h2, h3]

theorem psb_escape (e u : Nat) (rest : JSString) (h1 : e ≠ 117) (h2 : escapeValue e = some u) :
    parseStringBody (92 :: e :: rest) =
      match parseStringBody rest with
      | some (s, r) => some (u :: s, r)
      | none => none := by
  rw [parseStringBody.eq_def]; simp [h1, h2]

theorem psb_unicode (h1 h2 h3 h4 a b c d : Nat) (rest : JSString)
    (e1 : hexValue h1 = some a) (e2 : hexValue h2 = some b)
    (e3 : hexValue h3 = some c) (e4 : hexValue h4 = some d) :
    parseStringBody (92 :: 117 :: h1 :: h2 :: h3 :: h4 :: rest) =
      match parseStringBody rest with
      | some (s, r) => some ((a * 4096 + b * 256 + c * 16 + d) :: s, r)
      | none => none := by
  rw [parseStringBody.eq_def]; simp [e1, e2, e3, e4]


theorem psb_unicodeEscape (c : Nat) (hc : c < 65536) (t : JSString) :
    parseStringBody (unicodeEscape c ++ t) =
      match parseStringBody t with
      | some (s, r) => some (c :: s, r)
      | none => none := by
  have e : c / 4096 % 16 * 4096 + c / 256 % 16 * 256 + c / 16 % 16 * 16 + c % 16 = c := by omega
  simp only [unicodeEscape, List.cons_append, List.nil_append]
  rw [psb_unicode _ _ _ _ _ _ _ _ _ (hexValue_hexDigit _ (Nat.mod_lt _ (by decide)))
    (hexValue_hexDigit _ (Nat.mod_lt _ (by decide)))
    (hexValue_hexDigit _ (Nat.mod_lt _ (by decide)))
    (hexValue_hexDigit _ (Nat.mod_lt _ (by decide))), e]

theorem parseStringBody_quoteBody (s rest : JSString) :
    parseStringBody (quoteBody s ++ 34 :: rest) = some (s, rest) := by
  induction s using quoteBody.induct with
  | case1 => simpa [quoteBody] using psb_quote rest
  | case2 t ih =>
    rw [quoteBody.eq_def]; simp only [Nat.reduceEqDiff, ↓reduceIte, List.cons_append]
    rw [psb_escape 98 8 _ (by decide) (by decide), ih]
  | case3 t _ ih =>
    rw [quoteBody.eq_def]; simp only [Nat.reduceEqDiff, ↓reduceIte, List.cons_append]
    rw [psb_escape 116 9 _ (by decide) (by decide), ih]
  | case4 t _ _ ih =>
    rw [quoteBody.eq_def]; simp only [Nat.reduceEqDiff, ↓reduceIte, List.cons_append]
    rw [psb_escape 110 10 _ (by decide) (by decide), ih]
  | case5 t _ _ _ ih =>
    rw [quoteBody.eq_def]; simp only [Nat.reduceEqDiff, ↓reduceIte, List.cons_append]
    rw [psb_escape 102 12 _ (by decide) (by decide), ih]
  | case6 t _ _ _ _ ih =>
    rw [quoteBody.eq_def]; simp only [Nat.reduceEqDiff, ↓reduceIte, List.cons_append]
    rw [psb_escape 114 13 _ (by decide) (by decide), ih]
  | case7 t _ _ _ _ _ ih =>
    rw [quoteBody.eq_def]; simp only [Nat.reduceEqDiff, ↓reduceIte, List.cons_append]
    rw [psb_escape 34 34 _ (by decide) (by decide), ih]
  | case8 t _ _ _ _ _ _ ih =>
    rw [quoteBody.eq_def]; simp only [Nat.reduceEqDiff, ↓reduceIte, List.cons_append]
    rw [psb_escape 92 92 _ (by decide) (by decide), ih]
  | case9 c t h1 h2 h3 h4 h5 h6 h7 h8 ih =>
    rw [quoteBody.eq_def]; simp only [h1, h2, h3, h4, h5, h6, h7, h8, if_true, if_false, List.append_assoc]
    rw [psb_unicodeEscape c (by omega), ih]
  | case10 c h1 h2 h3 h4 h5 h6 h7 h8 hh =>
    rw [quoteBody.eq_def]; simp only [h1, h2, h3, h4, h5, h6, h7, h8, hh, if_true, if_false]
    have hc : c < 65536 := by simp [isHighSurrogate] at hh; omega
    rw [psb_unicodeEscape c hc, psb_quote]
  | case11 c h1 h2 h3 h4 h5 h6 h7 h8 hh d t hl ih =>
    rw [quoteBody.eq_def]; simp only [h1, h2, h3, h4, h5, h6, h7, h8, hh, hl, if_true, if_false,
      List.cons_append]
    have hd : 56320 ≤ d := by simp [isLowSurrogate] at hl; omega
    rw [psb_plain c _ h6 h7 h8, psb_plain d _ (by omega) (by omega) (by omega), ih]
  | case12 c h1 h2 h3 h4 h5 h6 h7 h8 hh d t hl ih =>
    rw [quoteBody.eq_def]
    simp only [h1, h2, h3, h4, h5, h6, h7, h8, hh, hl, if_true, if_false, List.append_assoc,
      Bool.false_eq_true]
    have hc : c < 65536 := by simp [isHighSurrogate] at hh; omega
    rw [psb_unicodeEscape c hc, ih]
  | case13 c t h1 h2 h3 h4 h5 h6 h7 h8 hh hl ih =>
    rw [quoteBody.eq_def]; simp only [h1, h2, h3, h4, h5, h6, h7, h8, hh, hl, if_true, if_false,
      List.append_assoc, Bool.false_eq_true]
    have hc : c < 65536 := by simp [isLowSurrogate] at hl; omega
    rw [psb_unicodeEscape c hc, ih]
  | case14 c t h1 h2 h3 h4 h5 h6 h7 h8 hh hl ih =>
    rw [quoteBody.eq_def]; simp only [h1, h2, h3, h4, h5, h6, h7, h8, hh, hl, if_true, if_false,
      List.cons_append, Bool.false_eq_true]
    rw [psb_plain c _ h6 h7 h8, ih]

/-! ### Digits -/

theorem NumEnd.digitsEnd {rest : JSString} (h : NumEnd rest) : DigitsEnd rest :=
  fun c r e => (h c r e).1

theorem numEnd_nil : NumEnd [] := fun _ _ e => by cases e

theorem numEnd_cons (c : Nat) (r : JSString) (h : c = 44 ∨ c = 93 ∨ c = 125) :
    NumEnd (c :: r) := by
  intro c2 r2 e
  cases e
  rcases h with h | h | h <;> subst h <;> decide

theorem takeDigits_digitChars (ds : List Nat) (rest : JSString)
    (hd : ∀ d ∈ ds, d < 10) (hr : DigitsEnd rest) :
    takeDigits (digitChars ds ++ rest) = (ds, rest) := by
  induction ds with
  | nil =>
    cases rest with
    | nil => rfl
    | cons c r => simp [digitChars, takeDigits, hr c r rfl]
  | cons d ds ih =>
    have h1 : d < 10 := hd d (List.mem_cons_self _ _)
    have h2 : isDigit (48 + d) = true := by simp [isDigit]; omega
    have ih2 := ih (fun x hx => hd x (List.mem_cons_of_mem _ hx))
    simp only [digitChars, List.map_cons, List.cons_append] at ih2 ⊢
    simp only [takeDigits, h2, if_true]
    rw [ih2]
    simp

theorem digitsValue_natDigitsAux (fuel m : Nat) (acc : List Nat) (h : m < fuel) :
    List.foldl (fun a d => 10 * a + d) 0 (natDigitsAux fuel m acc) =
      List.foldl (fun a d => 10 * a + d) m acc := by
  induction fuel generalizing m acc with
  | zero => omega
  | succ fuel ih =>
    unfold natDigitsAux
    split
    · simp
    · rw [ih (m / 10) _ (by omega)]
      simp only [List.foldl_cons]
      congr 1
      omega

theorem digitsValue_natDigits (m : Nat) : digitsValue (natDigits m) = m := by
  unfold digitsValue natDigits
  rw [digitsValue_natDigitsAux _ _ _ (by omega)]
  rfl

theorem natDigitsAux_lt (fuel m : Nat) (acc : List Nat) (h : m < fuel)
    (ha : ∀ d ∈ acc, d < 10) : ∀ d ∈ natDigitsAux fuel m acc, d < 10 := by
  induction fuel generalizing m acc with
  | zero => omega
  | succ fuel ih =>
    unfold natDigitsAux
    split
    · intro d hd
      rcases List.mem_cons.mp hd with e | e
      · omega
      · exact ha d e
    · apply ih (m / 10) _ (by omega)
      intro d hd
      rcases List.mem_cons.mp hd with e | e
      · omega
      · exact ha d e

theorem natDigits_lt (m : Nat) : ∀ d ∈ natDigits m, d < 10 :=
  natDigitsAux_lt _ _ _ (by omega) (by simp)

theorem natDigitsAux_ne_nil (fuel m : Nat) (acc : List Nat) (h : acc ≠ []) :
    natDigitsAux fuel m acc ≠ [] := by
  induction fuel generalizing m acc with
  | zero => simpa [natDigitsAux] using h
  | succ fuel ih =>
    unfold natDigitsAux
    split
    · simp
    · exact ih _ _ (by simp)

theorem natDigits_ne_nil (m : Nat) : natDigits m ≠ [] := by
  unfold natDigits natDigitsAux
  split
  · simp
  · exact natDigitsAux_ne_nil _ _ _ (by simp)

/-! ### Numbers -/

theorem dropWhile_zero_of_head (ds : List Nat) (h : ds.head? ≠ some 0) :
    ds.dropWhile (fun d => decide (d = 0)) = ds := by
  cases ds with
  | nil => rfl
  | cons d ds =>
    have : d ≠ 0 := by simpa using h
    simp [List.dropWhile, this]

theorem stripTrailingZeros_append_zeros (ds : List Nat) (z : Nat)
    (h : ds.getLast? ≠ some 0) : stripTrailingZeros (ds ++ List.replicate z 0) = ds := by
  unfold stripTrailingZeros
  rw [List.reverse_append, List.reverse_replicate]
  have h2 : (ds.reverse).head? ≠ some 0 := by simpa [List.head?_reverse] using h
  have h3 : ∀ (z : Nat) (l : List Nat), l.head? ≠ some 0 →
      (List.replicate z 0 ++ l).dropWhile (fun d => decide (d = 0)) = l := by
    intro z l hl
    induction z with
    | zero => simpa using dropWhile_zero_of_head l hl
    | succ z ih => simpa [List.replicate_succ, List.dropWhile] using ih
  rw [h3 z _ h2, List.reverse_reverse]

theorem stripTrailingZeros_self (ds : List Nat) (h : ds.getLast? ≠ some 0) :
    stripTrailingZeros ds = ds := by
  simpa using stripTrailingZeros_append_zeros ds 0 h

theorem dropWhile_zeros_append (z : Nat) (ds : List Nat) (h : ds.head? ≠ some 0) :
    (List.replicate z 0 ++ ds).dropWhile (fun d => decide (d = 0)) = ds := by
  induction z with
  | zero => simpa using dropWhile_zero_of_head ds h
  | succ z ih => simpa [List.replicate_succ, List.dropWhile] using ih

theorem mkNum_plain (neg : Bool) (ds : List Nat) (z : Nat) (hne : ds ≠ [])
    (hh : ds.head? ≠ some 0) (hl : ds.getLast? ≠ some 0) :
    mkNum neg (ds ++ List.replicate z 0) [] 0 = roundNum neg ds (ds.length + z : Nat) := by
  have h1 : (ds ++ List.replicate z 0).head? ≠ some 0 := by
    cases ds with
    | nil => exact absurd rfl hne
    | cons d t => simpa using hh
  unfold mkNum
  simp only [List.append_nil]
  rw [dropWhile_zero_of_head _ h1, stripTrailingZeros_append_zeros _ _ hl]
  simp [hne]

theorem mkNum_split (neg : Bool) (ip fp : List Nat) (e : Int) (hne : ip ++ fp ≠ [])
    (hh : (ip ++ fp).head? ≠ some 0) (hl : (ip ++ fp).getLast? ≠ some 0) :
    mkNum neg ip fp e = roundNum neg (ip ++ fp) (ip.length + e) := by
  unfold mkNum
  simp only
  rw [dropWhile_zero_of_head _ hh, stripTrailingZeros_self _ hl]
  simp [hne]

theorem mkNum_small (neg : Bool) (ds : List Nat) (z : Nat) (hne : ds ≠ [])
    (hh : ds.head? ≠ some 0) (hl : ds.getLast? ≠ some 0) :
    mkNum neg [0] (List.replicate z 0 ++ ds) 0 = roundNum neg ds (-(z : Int)) := by
  unfold mkNum
  have e : [0] ++ (List.replicate z 0 ++ ds) = List.replicate (z + 1) 0 ++ ds := by
    simp [List.replicate_succ]
  simp only
  rw [e, dropWhile_zeros_append _ _ hh, stripTrailingZeros_self _ hl]
  simp [hne]

theorem digitChars_append (a b : List Nat) :
    digitChars (a ++ b) = digitChars a ++ digitChars b := by
  simp [digitChars]

theorem digitChars_replicate (z : Nat) : digitChars (List.replicate z 0) = List.replicate z 48 := by
  simp [digitChars]

theorem digitsEnd_cons (c : Nat) (r : JSString) (h : isDigit c = false) : DigitsEnd (c :: r) := by
  intro c2 r2 e
  cases e
  exact h

theorem parseInt_digits (d : Nat) (t : List Nat) (rest : JSString) (h0 : d ≠ 0)
    (hd : ∀ x ∈ d :: t, x < 10) (hr : DigitsEnd rest) :
    parseInt (digitChars (d :: t) ++ rest) = some (d :: t, rest) := by
  have h1 : d < 10 := hd d (List.mem_cons_self _ _)
  have h2 : isDigit (48 + d) = true := by simp [isDigit]; omega
  have h3 : ¬ (48 + d = 48) := by omega
  have h4 := takeDigits_digitChars t rest (fun x hx => hd x (List.mem_cons_of_mem _ hx)) hr
  simp only [digitChars, List.map_cons, List.cons_append] at h4 ⊢
  simp only [parseInt, h3, h2, if_true, if_false, h4]
  simp

theorem parseInt_zero (rest : JSString) : parseInt (48 :: rest) = some ([0], rest) := by
  simp [parseInt]

theorem parseFrac_skip (rest : JSString) (h : rest.head? ≠ some 46) :
    parseFrac rest = some ([], rest) := by
  cases rest with
  | nil => rfl
  | cons c r =>
    have : c ≠ 46 := by simpa using h
    simp [parseFrac, this]

theorem parseFrac_digits (ds : List Nat) (rest : JSString) (hne : ds ≠ [])
    (hd : ∀ x ∈ ds, x < 10) (hr : DigitsEnd rest) :
    parseFrac (46 :: (digitChars ds ++ rest)) = some (ds, rest) := by
  simp [parseFrac, takeDigits_digitChars ds rest hd hr, hne]

theorem parseExp_skip (rest : JSString) (h : NumEnd rest) : parseExp rest = some (0, rest) := by
  cases rest with
  | nil => rfl
  | cons c r =>
    have h1 := h c r rfl
    simp [parseExp, h1.2.2.1, h1.2.2.2]

theorem parseExp_digits (e : Int) (rest : JSString) (hr : DigitsEnd rest) :
    parseExp (101 :: (if e < 0 then 45 else 43) :: (digitChars (natDigits e.natAbs) ++ rest)) =
      some (e, rest) := by
  have h1 := takeDigits_digitChars (natDigits e.natAbs) rest (natDigits_lt _) hr
  have h2 := natDigits_ne_nil e.natAbs
  by_cases he : e < 0
  · simp only [parseExp, he, if_true, true_or, parseExpDigits, h1, h2, if_false,
      digitsValue_natDigits]
    simp
    rw [abs_of_neg he]
    omega
  · simp only [parseExp, he, if_true, true_or, parseExpDigits, h1, h2, if_false,
      digitsValue_natDigits]
    simp
    omega

theorem JNum.wf_dec {neg : Bool} {ds : List Nat} {n : Int} (h : (JNum.dec neg ds n).wf = true) :
    (∀ d ∈ ds, d < 10) ∧ ds.head? ≠ some 0 ∧ ds.getLast? ≠ some 0 ∧ ds ≠ [] ∧
      roundNum neg ds n = JNum.dec neg ds n := by
  simp only [JNum.wf, Bool.and_eq_true, List.all_eq_true, decide_eq_true_eq, bne_iff_ne, ne_eq,
    Bool.not_eq_true', List.isEmpty_eq_false] at h
  obtain ⟨⟨⟨⟨h1, h2⟩, h3⟩, h4⟩, h5⟩ := h
  refine ⟨h1, h2, h3, ?_, h5⟩
  intro e
  subst e
  simp at h4

theorem parseUnsigned_positiveToString (neg : Bool) (ds : List Nat) (n : Int) (rest : JSString)
    (hd : ∀ d ∈ ds, d < 10) (hh : ds.head? ≠ some 0) (hl : ds.getLast? ≠ some 0)
    (hne : ds ≠ []) (hr : NumEnd rest) :
    parseUnsigned neg (positiveToString ds n ++ rest) = some (roundNum neg ds n, rest) := by
  obtain ⟨d, t, rfl⟩ := List.exists_cons_of_ne_nil hne
  have hd0 : d ≠ 0 := by simpa using hh
  unfold positiveToString
  simp only
  split
  · -- digits followed by zeros
    rename_i h
    obtain ⟨z, hz⟩ : ∃ z : Nat, n = ((d :: t).length : Int) + z :=
      ⟨(n - (d :: t).length).toNat, by omega⟩
    have e1 : (n - ((d :: t).length : Int)).toNat = z := by omega
    rw [e1, ← digitChars_replicate, ← digitChars_append, List.cons_append]
    have hd2 : ∀ x ∈ d :: (t ++ List.replicate z 0), x < 10 := by
      intro x hx
      rcases List.mem_cons.mp hx with e | e
      · exact e ▸ hd d (List.mem_cons_self _ _)
      · rcases List.mem_append.mp e with e | e
        · exact hd x (List.mem_cons_of_mem _ e)
        · rw [List.eq_of_mem_replicate e]; decide
    unfold parseUnsigned
    rw [parseInt_digits d _ rest hd0 hd2 hr.digitsEnd]
    simp only
    rw [parseFrac_skip rest (by
      cases rest with
      | nil => simp
      | cons c r => simpa using (hr c r rfl).2.1)]
    simp only
    rw [parseExp_skip rest hr]
    simp only
    rw [← List.cons_append, mkNum_plain neg (d :: t) z hne hh hl, hz]
    simp
  · split
    · -- a point inside the digits
      rename_i h1 h2
      obtain ⟨m, hm⟩ : ∃ m : Nat, n = (m : Int) + 1 := ⟨(n - 1).toNat, by omega⟩
      have hmt : m < t.length := by simp only [List.length_cons] at h1; omega
      have e1 : n.toNat = m + 1 := by omega
      rw [e1, List.take_succ_cons, List.drop_succ_cons, List.append_assoc, List.cons_append]
      have hd2 : ∀ x ∈ d :: t.take m, x < 10 := by
        intro x hx
        rcases List.mem_cons.mp hx with e | e
        · exact e ▸ hd d (List.mem_cons_self _ _)
        · exact hd x (List.mem_cons_of_mem _ (List.mem_of_mem_take e))
      have hd3 : ∀ x ∈ t.drop m, x < 10 :=
        fun x hx => hd x (List.mem_cons_of_mem _ (List.mem_of_mem_drop hx))
      have hne3 : t.drop m ≠ [] := by
        intro e
        have := congrArg List.length e
        simp at this
        omega
      unfold parseUnsigned
      rw [parseInt_digits d _ _ hd0 hd2 (digitsEnd_cons 46 _ (by decide))]
      simp only
      rw [parseFrac_digits _ rest hne3 hd3 hr.digitsEnd]
      simp only
      rw [parseExp_skip rest hr]
      simp only
      have e2 : (d :: List.take m t) ++ List.drop m t = d :: t := by simp
      rw [mkNum_split neg _ _ 0 (by simp) (by rw [e2]; exact hh) (by rw [e2]; exact hl), e2]
      have e3 : (d :: List.take m t).length = m + 1 := by
        simp [List.length_take]; omega
      rw [e3, hm]
      simp
    · split
      · -- zeros between the point and the digits
        rename_i h1 h2 h3
        obtain ⟨z, hz⟩ : ∃ z : Nat, n = -(z : Int) := ⟨(-n).toNat, by omega⟩
        have e1 : (-n).toNat = z := by omega
        rw [e1, ← digitChars_replicate, ← digitChars_append, List.cons_append, List.cons_append]
        have hd2 : ∀ x ∈ List.replicate z 0 ++ d :: t, x < 10 := by
          intro x hx
          rcases List.mem_append.mp hx with e | e
          · rw [List.eq_of_mem_replicate e]; decide
          · exact hd x e
        unfold parseUnsigned
        rw [parseInt_zero]
        simp only
        rw [parseFrac_digits _ rest (by simp) hd2 hr.digitsEnd]
        simp only
        rw [parseExp_skip rest hr]
        simp only
        rw [mkNum_small neg (d :: t) z hne hh hl, hz]
      · -- exponent form
        cases t with
        | nil =>
          simp only [List.cons_append]
          unfold parseUnsigned
          have := parseInt_digits d [] (101 :: (if n - 1 < 0 then 45 else 43) ::
            (digitChars (natDigits (n - 1).natAbs) ++ rest)) hd0 hd
            (digitsEnd_cons 101 _ (by decide))
          simp only [digitChars, List.map_cons, List.map_nil, List.cons_append,
            List.nil_append] at this
          simp only [digitChars]
          rw [this]
          simp only
          rw [parseFrac_skip _ (by simp)]
          simp only
          have h5 := parseExp_digits (n - 1) rest hr.digitsEnd
          simp only [digitChars] at h5
          rw [h5]
          simp only
          rw [mkNum_split neg [d] [] (n - 1) (by simp) (by simpa using hh) (by simpa using hl)]
          simp
        | cons d2 t2 =>
          simp only [List.cons_append, List.append_assoc]
          unfold parseUnsigned
          have := parseInt_digits d [] (46 :: (digitChars (d2 :: t2) ++ 101 ::
            (if n - 1 < 0 then 45 else 43) ::
            (digitChars (natDigits (n - 1).natAbs) ++ rest))) hd0
            (fun x hx => hd x (by
              rcases List.mem_cons.mp hx with e | e
              · exact e ▸ List.mem_cons_self _ _
              · cases e))
            (digitsEnd_cons 46 _ (by decide))
          simp only [digitChars, List.map_cons, List.map_nil, List.cons_append,
            List.nil_append] at this
          simp only [digitChars, List.map_cons, List.cons_append]
          rw [this]
          simp only
          have h4 := parseFrac_digits (d2 :: t2) (101 :: (if n - 1 < 0 then 45 else 43) ::
            (digitChars (natDigits (n - 1).natAbs) ++ rest)) (by simp)
            (fun x hx => hd x (List.mem_cons_of_mem _ hx)) (digitsEnd_cons 101 _ (by decide))
          simp only [digitChars, List.map_cons, List.cons_append] at h4
          rw [h4]
          simp only
          have h5 := parseExp_digits (n - 1) rest hr.digitsEnd
          simp only [digitChars] at h5
          rw [h5]
          simp only
          rw [mkNum_split neg [d] (d2 :: t2) (n - 1) (by simp) (by simpa using hh)
            (by simpa using hl)]
          simp

theorem parseNumber_of_unsigned (cs : JSString) (r : JNum × JSString)
    (h : parseUnsigned false cs = some r) : parseNumber cs = some r := by
  cases cs with
  | nil => simp [parseUnsigned, parseInt] at h
  | cons c t =>
    by_cases hc : c = 45
    · subst hc
      simp [parseUnsigned, parseInt, isDigit] at h
    · simpa [parseNumber, hc] using h

theorem JNum.isFinite_of_wf {x : JNum} (hx : x.wf = true) : x.isFinite = true := by
  cases x <;> simp [JNum.wf] at hx <;> rfl

theorem parseNumber_numberToString (x : JNum) (rest : JSString) (hx : x.wf = true)
    (hr : NumEnd rest) :
    parseNumber (numberToString x ++ rest) = some (x.plusZero, rest) := by
  cases x with
  | nan => simp [JNum.wf] at hx
  | inf neg => simp [JNum.wf] at hx
  | zero neg =>
    apply parseNumber_of_unsigned
    simp only [numberToString, List.cons_append, List.nil_append]
    unfold parseUnsigned
    rw [parseInt_zero]
    simp only
    rw [parseFrac_skip rest (by
      cases rest with
      | nil => simp
      | cons c r => simpa using (hr c r rfl).2.1)]
    simp only
    rw [parseExp_skip rest hr]
    rfl
  | dec neg ds n =>
    obtain ⟨hd, hh, hl, hne, hrn⟩ := JNum.wf_dec hx
    cases neg with
    | true =>
      simp only [numberToString, if_true, List.cons_append]
      simp only [parseNumber, if_true]
      rw [parseUnsigned_positiveToString true ds n rest hd hh hl hne hr, hrn]
      rfl
    | false =>
      apply parseNumber_of_unsigned
      simp only [numberToString, Bool.false_eq_true, if_false]
      rw [parseUnsigned_positiveToString false ds n rest hd hh hl hne hr, hrn]
      rfl

/-! ### Objects -/

theorem defineProperty_of_not_mem (o : List (JSString × JSON)) (k : JSString) (v : JSON)
    (h : k ∉ o.map Prod.fst) : defineProperty o k v = o ++ [(k, v)] := by
  induction o with
  | nil => rfl
  | cons e rest ih =>
    obtain ⟨k2, v2⟩ := e
    simp only [List.map_cons, List.mem_cons, not_or] at h
    simp only [defineProperty, Ne.symm h.1, if_false, List.cons_append]
    rw [ih h.2]

theorem foldl_defineProperty (ms acc : List (JSString × JSON))
    (h : ((acc ++ ms).map Prod.fst).Nodup) :
    ms.foldl (fun o m => defineProperty o m.1 m.2) acc = acc ++ ms := by
  induction ms generalizing acc with
  | nil => simp
  | cons m rest ih =>
    obtain ⟨k, v⟩ := m
    have hk : k ∉ acc.map Prod.fst := by
      simp only [List.map_append, List.map_cons] at h
      have := (List.nodup_append.mp h).2.2
      intro hmem
      exact this hmem (List.mem_cons_self _ _)
    simp only [List.foldl_cons]
    rw [defineProperty_of_not_mem acc k v hk, ih _ (by simpa using h)]
    simp

theorem insertByIndex_ne_nil (i : Nat) (e : JSString × JSON) (l : List (JSString × JSON)) :
    insertByIndex i e l ≠ [] := by
  cases l with
  | nil => simp [insertByIndex]
  | cons f rest =>
    simp only [insertByIndex]
    split
    · split <;> simp
    · simp

theorem indexOrder_tail {k : JSString} {rest : List JSString} (h : indexOrder (k :: rest) = true) :
    indexOrder rest = true := by
  cases rest with
  | nil => rfl
  | cons k2 t =>
    simp only [indexOrder, Bool.and_eq_true] at h
    exact h.2

theorem indexedProperties_of_named (kvs : List (JSString × JSON)) (k : JSString)
    (hk : arrayIndex k = none) (h : indexOrder (k :: kvs.map Prod.fst) = true) :
    indexedProperties kvs = [] ∧ namedProperties kvs = kvs := by
  induction kvs generalizing k with
  | nil => exact ⟨rfl, rfl⟩
  | cons e rest ih =>
    obtain ⟨k2, v2⟩ := e
    simp only [List.map_cons, indexOrder, Bool.and_eq_true, hk] at h
    cases h2 : arrayIndex k2 with
    | some j => rw [h2] at h; simp at h
    | none =>
      have := ih k2 h2 h.2
      simp only [indexedProperties, namedProperties, h2, this.1, this.2, and_self]

theorem enumerate_of_indexOrder (kvs : List (JSString × JSON))
    (h : indexOrder (kvs.map Prod.fst) = true) :
    indexedProperties kvs ++ namedProperties kvs = kvs := by
  induction kvs with
  | nil => rfl
  | cons e rest ih =>
    obtain ⟨k, v⟩ := e
    have ih2 := ih (indexOrder_tail h)
    cases hk : arrayIndex k with
    | none =>
      have := indexedProperties_of_named rest k hk h
      simp only [indexedProperties, namedProperties, hk, this.1, this.2, List.nil_append]
    | some i =>
      simp only [indexedProperties, namedProperties, hk]
      cases rest with
      | nil => rfl
      | cons e2 rest2 =>
        obtain ⟨k2, v2⟩ := e2
        simp only [List.map_cons, indexOrder, Bool.and_eq_true, hk] at h
        cases hk2 : arrayIndex k2 with
        | none =>
          have := indexedProperties_of_named rest2 k2 hk2 h.2
          simp only [indexedProperties, namedProperties, hk2, this.1, this.2, insertByIndex,
            List.cons_append, List.nil_append]
        | some j =>
          rw [hk2] at h
          have hij : i < j := by simpa using h.1
          simp only [indexedProperties, namedProperties, hk2] at ih2 ⊢
          -- the sorted properties of the tail start with the second property
          have hhead : ∃ L, insertByIndex j (k2, v2) (indexedProperties rest2) = (k2, v2) :: L := by
            cases hL : insertByIndex j (k2, v2) (indexedProperties rest2) with
            | nil => exact absurd hL (insertByIndex_ne_nil _ _ _)
            | cons f L => rw [hL] at ih2; simp only [List.cons_append, List.cons.injEq] at ih2
                          exact ⟨L, by rw [ih2.1]⟩
          obtain ⟨L, hL⟩ := hhead
          rw [hL] at ih2 ⊢
          simp only [insertByIndex, hk2, hij, if_true, List.cons_append]
          simp only [List.cons_append] at ih2
          rw [ih2]

theorem objectOf_of_enumerationOrder (kvs : List (JSString × JSON))
    (h : enumerationOrder (kvs.map Prod.fst) = true) : objectOf kvs = kvs := by
  simp only [enumerationOrder, Bool.and_eq_true, decide_eq_true_eq] at h
  simp only [objectOf]
  rw [foldl_defineProperty kvs [] (by simpa using h.1), List.nil_append]
  exact enumerate_of_indexOrder kvs h.2

theorem plusZeroMembers_keys (kvs : List (JSString × JSON)) :
    (plusZeroMembers kvs).map Prod.fst = kvs.map Prod.fst := by
  induction kvs with
  | nil => rfl
  | cons e rest ih =>
    obtain ⟨k, v⟩ := e
    simp [plusZeroMembers, ih]

/-! ### Values -/

theorem parseValue_cons (fuel c : Nat) (rest : JSString) (hws : isWS c = false) :
    parseValue (fuel + 1) (c :: rest) =
      if c = 110 then (expect [117, 108, 108] rest).map (fun r => (JSON.null, r))
      else if c = 116 then (expect [114, 117, 101] rest).map (fun r => (JSON.bool true, r))
      else if c = 102 then
        (expect [97, 108, 115, 101] rest).map (fun r => (JSON.bool false, r))
      else if c = 34 then (parseStringBody rest).map (fun p => (JSON.str p.1, p.2))
      else if c = 91 then
        match skipWS rest with
        | [] => none
        | d :: rest2 =>
          if d = 93 then some (JSON.arr [], rest2)
          else (parseElements fuel (d :: rest2)).map (fun p => (JSON.arr p.1, p.2))
      else if c = 123 then
        match skipWS rest with
        | [] => none
        | d :: rest2 =>
          if d = 125 then some (JSON.obj [], rest2)
          else
            (parseMembers fuel (d :: rest2)).map (fun p => (JSON.obj (objectOf p.1), p.2))
      else (parseNumber (c :: rest)).map (fun p => (JSON.num p.1, p.2)) := by
  rw [parseValue]
  simp only [skipWS, hws, Bool.false_eq_true, if_false]

theorem skipWS_cons (c : Nat) (rest : JSString) (hws : isWS c = false) :
    skipWS (c :: rest) = c :: rest := by
  simp [skipWS, hws]

theorem parseNumber_head (cs : JSString) (r : JNum × JSString) (h : parseNumber cs = some r) :
    ∃ c t, cs = c :: t ∧ (c = 45 ∨ isDigit c = true) := by
  cases cs with
  | nil => simp [parseNumber] at h
  | cons c t =>
    refine ⟨c, t, rfl, ?_⟩
    by_cases hc : c = 45
    · exact Or.inl hc
    · right
      simp only [parseNumber, hc, if_false, parseUnsigned] at h
      by_cases h48 : c = 48
      · subst h48; decide
      · by_cases hd : isDigit c = true
        · exact hd
        · simp [parseInt, h48, hd] at h

theorem parseValue_number (fuel : Nat) (cs : JSString) (x : JNum) (r : JSString)
    (h : parseNumber cs = some (x, r)) : parseValue (fuel + 1) cs = some (JSON.num x, r) := by
  obtain ⟨c, t, rfl, hc⟩ := parseNumber_head cs _ h
  have hw : isWS c = false := by
    rcases hc with hc | hc
    · subst hc; decide
    · simp [isDigit] at hc
      simp [isWS]; omega
  have hn : c ≠ 110 ∧ c ≠ 116 ∧ c ≠ 102 ∧ c ≠ 34 ∧ c ≠ 91 ∧ c ≠ 123 := by
    rcases hc with hc | hc
    · subst hc; decide
    · simp [isDigit] at hc
      omega
  rw [parseValue_cons fuel c t hw]
  simp [hn.1, hn.2.1, hn.2.2.1, hn.2.2.2.1, hn.2.2.2.2.1, hn.2.2.2.2.2, h]

theorem serializeElements_pos (xs : List JSON) : 0 < (serializeElements xs).length := by
  cases xs <;> simp [serializeElements]

theorem serializeMembers_pos (kvs : List (JSString × JSON)) :
    0 < (serializeMembers kvs).length := by
  cases kvs with
  | nil => simp [serializeMembers]
  | cons p t => cases p; simp [serializeMembers]

theorem serializeElements_numEnd (xs : List JSON) (rest : JSString) :
    NumEnd (serializeElements xs ++ rest) := by
  cases xs with
  | nil => exact numEnd_cons 93 _ (by simp)
  | cons x t => exact numEnd_cons 44 _ (by simp)

theorem serializeMembers_numEnd (kvs : List (JSString × JSON)) (rest : JSString) :
    NumEnd (serializeMembers kvs ++ rest) := by
  cases kvs with
  | nil => exact numEnd_cons 125 _ (by simp)
  | cons p t => cases p; exact numEnd_cons 44 _ (by simp)

theorem serialize_head (v : JSON) (hv : v.wf = true) :
    ∃ c t, serialize v = c :: t ∧ isWS c = false ∧ c ≠ 93 := by
  cases v with
  | null => exact ⟨110, _, by rw [serialize], by decide, by decide⟩
  | bool b =>
    cases b
    · exact ⟨102, _, by rw [serialize], by decide, by decide⟩
    · exact ⟨116, _, by rw [serialize], by decide, by decide⟩
  | num x =>
    have hx : x.wf = true := by simpa [JSON.wf] using hv
    have h := parseNumber_numberToString x [] hx numEnd_nil
    obtain ⟨c, t, e, hc⟩ := parseNumber_head _ _ h
    rw [List.append_nil] at e
    refine ⟨c, t, by rw [serialize, JNum.isFinite_of_wf hx, if_pos rfl, e], ?_, ?_⟩
    · rcases hc with hc | hc
      · subst hc; decide
      · simp [isDigit] at hc
        simp [isWS]; omega
    · rcases hc with hc | hc
      · subst hc; decide
      · simp [isDigit] at hc
        omega
  | str s => exact ⟨34, _, by rw [serialize, quoteJSONString], by decide, by decide⟩
  | arr xs =>
    cases xs with
    | nil => exact ⟨91, _, by rw [serialize], by decide, by decide⟩
    | cons x t => exact ⟨91, _, by rw [serialize], by decide, by decide⟩
  | obj kvs =>
    cases kvs with
    | nil => exact ⟨123, _, by rw [serialize], by decide, by decide⟩
    | cons p t =>
      cases p
      exact ⟨123, _, by rw [serialize], by decide, by decide⟩

mutual
theorem parseValue_serialize (v : JSON) (hv : v.wf = true) (fuel : Nat) (rest : JSString)
    (hr : NumEnd rest) (hf : (serialize v).length ≤ fuel) :
    parseValue fuel (serialize v ++ rest) = some (v.plusZero, rest) := by
  cases v with
  | null =>
    rw [serialize] at hf ⊢
    obtain ⟨f, rfl⟩ : ∃ f, fuel = f + 1 := ⟨fuel - 1, by simp at hf; omega⟩
    rw [List.cons_append, parseValue_cons f 110 _ (by decide)]
    simp [JSON.plusZero, plusZeroElements, plusZeroMembers, expect]
  | bool b =>
    cases b
    · rw [serialize] at hf ⊢
      obtain ⟨f, rfl⟩ : ∃ f, fuel = f + 1 := ⟨fuel - 1, by simp at hf; omega⟩
      rw [List.cons_append, parseValue_cons f 102 _ (by decide)]
      simp [JSON.plusZero, plusZeroElements, plusZeroMembers, expect]
    · rw [serialize] at hf ⊢
      obtain ⟨f, rfl⟩ : ∃ f, fuel = f + 1 := ⟨fuel - 1, by simp at hf; omega⟩
      rw [List.cons_append, parseValue_cons f 116 _ (by decide)]
      simp [JSON.plusZero, plusZeroElements, plusZeroMembers, expect]
  | num x =>
    have hx : x.wf = true := by simpa [JSON.wf] using hv
    obtain ⟨c, t, e, _, _⟩ := serialize_head (JSON.num x) hv
    obtain ⟨f, rfl⟩ : ∃ f, fuel = f + 1 := ⟨fuel - 1, by rw [e] at hf; simp at hf; omega⟩
    rw [serialize, JNum.isFinite_of_wf hx, if_pos rfl, JSON.plusZero]
    exact parseValue_number f _ x.plusZero rest (parseNumber_numberToString x rest hx hr)
  | str s =>
    rw [serialize, quoteJSONString] at hf ⊢
    obtain ⟨f, rfl⟩ : ∃ f, fuel = f + 1 := ⟨fuel - 1, by simp at hf; omega⟩
    rw [List.cons_append, parseValue_cons f 34 _ (by decide)]
    simp [JSON.plusZero, plusZeroElements, plusZeroMembers, parseStringBody_quoteBody]
  | arr xs =>
    cases xs with
    | nil =>
      rw [serialize] at hf ⊢
      obtain ⟨f, rfl⟩ : ∃ f, fuel = f + 1 := ⟨fuel - 1, by simp at hf; omega⟩
      rw [List.cons_append, parseValue_cons f 91 _ (by decide)]
      simp [JSON.plusZero, plusZeroElements, plusZeroMembers, skipWS_cons 93 rest (by decide)]
    | cons x t =>
      have hx : x.wf = true ∧ wfElements t = true := by
        simpa [JSON.wf, wfElements] using hv
      rw [serialize] at hf ⊢
      obtain ⟨f, rfl⟩ : ∃ f, fuel = f + 1 := ⟨fuel - 1, by simp at hf; omega⟩
      obtain ⟨c, u, e, hw, h93⟩ := serialize_head x hx.1
      have key := parseElements_serialize t hx.2 x f rest
        (fun f2 r2 h1 h2 => parseValue_serialize x hx.1 f2 r2 h1 h2)
        (by simp at hf; omega)
      rw [List.cons_append, parseValue_cons f 91 _ (by decide), List.append_assoc]
      rw [e] at key ⊢
      simp only [List.cons_append] at key ⊢
      rw [skipWS_cons c _ hw]
      simp [JSON.plusZero, plusZeroElements, plusZeroMembers, h93, key]
  | obj kvs =>
    cases kvs with
    | nil =>
      rw [serialize] at hf ⊢
      obtain ⟨f, rfl⟩ : ∃ f, fuel = f + 1 := ⟨fuel - 1, by simp at hf; omega⟩
      rw [List.cons_append, parseValue_cons f 123 _ (by decide)]
      simp [JSON.plusZero, plusZeroElements, plusZeroMembers, skipWS_cons 125 rest (by decide)]
    | cons p t =>
      obtain ⟨k, x⟩ := p
      have hx : x.wf = true ∧ wfMembers t = true := by
        have := hv
        simp only [JSON.wf, wfMembers, Bool.and_eq_true] at this
        exact this.2
      have hkeys : enumerationOrder (((k, x) :: t).map Prod.fst) = true := by
        have := hv
        simp only [JSON.wf, Bool.and_eq_true] at this
        exact this.1
      have hobj : objectOf ((k, x.plusZero) :: plusZeroMembers t)
          = (k, x.plusZero) :: plusZeroMembers t :=
        objectOf_of_enumerationOrder _ (by
          simpa [plusZeroMembers_keys] using hkeys)
      rw [serialize] at hf ⊢
      obtain ⟨f, rfl⟩ : ∃ f, fuel = f + 1 := ⟨fuel - 1, by simp at hf; omega⟩
      have key := parseMembers_serialize t hx.2 k x f rest
        (fun f2 r2 h1 h2 => parseValue_serialize x hx.1 f2 r2 h1 h2)
        (by simp at hf; omega)
      rw [List.cons_append, parseValue_cons f 123 _ (by decide)]
      simp only [quoteJSONString, List.cons_append, List.append_assoc, List.nil_append] at key ⊢
      rw [skipWS_cons 34 _ (by decide)]
      simp [JSON.plusZero, plusZeroElements, plusZeroMembers, key, hobj]
theorem parseElements_serialize (xs : List JSON) (hxs : wfElements xs = true) (x : JSON)
    (fuel : Nat) (rest : JSString)
    (hx : ∀ f r, NumEnd r → (serialize x).length ≤ f →
      parseValue f (serialize x ++ r) = some (x.plusZero, r))
    (hf : (serialize x).length + (serializeElements xs).length ≤ fuel) :
    parseElements fuel (serialize x ++ (serializeElements xs ++ rest)) =
      some (x.plusZero :: plusZeroElements xs, rest) := by
  have hpos := serializeElements_pos xs
  obtain ⟨f, rfl⟩ : ∃ f, fuel = f + 1 := ⟨fuel - 1, by omega⟩
  rw [parseElements, hx f _ (serializeElements_numEnd xs rest) (by omega)]
  cases xs with
  | nil =>
    simp [JSON.plusZero, plusZeroElements, plusZeroMembers, serializeElements, skipWS_cons 93 rest (by decide)]
  | cons y ys =>
    have hy : y.wf = true ∧ wfElements ys = true := by
      simpa [wfElements] using hxs
    have key := parseElements_serialize ys hy.2 y f rest
      (fun f2 r2 h1 h2 => parseValue_serialize y hy.1 f2 r2 h1 h2)
      (by simp [serializeElements] at hf; omega)
    simp only [serializeElements, List.cons_append, List.append_assoc]
    rw [skipWS_cons 44 _ (by decide)]
    simp [JSON.plusZero, plusZeroElements, plusZeroMembers, key]
theorem parseMembers_serialize (kvs : List (JSString × JSON)) (hkvs : wfMembers kvs = true)
    (k : JSString) (x : JSON) (fuel : Nat) (rest : JSString)
    (hx : ∀ f r, NumEnd r → (serialize x).length ≤ f →
      parseValue f (serialize x ++ r) = some (x.plusZero, r))
    (hf : (serialize x).length + (serializeMembers kvs).length ≤ fuel) :
    parseMembers fuel (quoteJSONString k ++ 58 :: (serialize x ++ (serializeMembers kvs ++ rest))) =
      some ((k, x.plusZero) :: plusZeroMembers kvs, rest) := by
  have hpos := serializeMembers_pos kvs
  obtain ⟨f, rfl⟩ : ∃ f, fuel = f + 1 := ⟨fuel - 1, by omega⟩
  simp only [quoteJSONString, List.cons_append, List.append_assoc]
  rw [parseMembers, skipWS_cons 34 _ (by decide)]
  simp only [if_true, parseStringBody_quoteBody, List.nil_append]
  rw [skipWS_cons 58 _ (by decide)]
  simp only [if_true]
  rw [hx f _ (serializeMembers_numEnd kvs rest) (by omega)]
  cases kvs with
  | nil =>
    simp [JSON.plusZero, plusZeroElements, plusZeroMembers, serializeMembers, skipWS_cons 125 rest (by decide)]
  | cons p ps =>
    obtain ⟨k2, y⟩ := p
    have hy : y.wf = true ∧ wfMembers ps = true := by
      simpa [wfMembers] using hkvs
    have key := parseMembers_serialize ps hy.2 k2 y f rest
      (fun f2 r2 h1 h2 => parseValue_serialize y hy.1 f2 r2 h1 h2)
      (by simp [serializeMembers] at hf; omega)
    simp only [serializeMembers, quoteJSONString, List.cons_append, List.append_assoc,
      List.nil_append] at key ⊢
    rw [skipWS_cons 44 _ (by decide)]
    simp [JSON.plusZero, plusZeroElements, plusZeroMembers, key]
end

/-! ### `JSON.parse` after `JSON.stringify` -/

theorem JSON.parse_stringify (v : JSON) (hv : v.wf = true) :
    JSON.parse (JSON.stringify v) = Except.ok v.plusZero := by
  have h := parseValue_serialize v hv ((serialize v).length + 1) [] numEnd_nil (by omega)
  rw [List.append_nil] at h
  simp [JSON.parse, JSON.stringify, h, skipWS]

mutual
theorem JSON.plusZero_of_negZeroFree (v : JSON) (h : v.negZeroFree = true) :
    v.plusZero = v := by
  cases v with
  | null => rfl
  | bool b => rfl
  | num x =>
    cases x with
    | zero neg =>
      cases neg
      · rfl
      · simp [JSON.negZeroFree] at h
    | nan => rfl
    | inf neg => rfl
    | dec neg ds n => rfl
  | str s => rfl
  | arr xs =>
    rw [JSON.plusZero, plusZeroElements_of_negZeroFree xs (by simpa [JSON.negZeroFree] using h)]
  | obj kvs =>
    rw [JSON.plusZero, plusZeroMembers_of_negZeroFree kvs (by simpa [JSON.negZeroFree] using h)]
theorem plusZeroElements_of_negZeroFree (xs : List JSON)
    (h : negZeroFreeElements xs = true) : plusZeroElements xs = xs := by
  cases xs with
  | nil => rfl
  | cons x t =>
    have h2 : x.negZeroFree = true ∧ negZeroFreeElements t = true := by
      simpa [negZeroFreeElements] using h
    rw [plusZeroElements, JSON.plusZero_of_negZeroFree x h2.1,
      plusZeroElements_of_negZeroFree t h2.2]
theorem plusZeroMembers_of_negZeroFree (kvs : List (JSString × JSON))
    (h : negZeroFreeMembers kvs = true) : plusZeroMembers kvs = kvs := by
  cases kvs with
  | nil => rfl
  | cons p t =>
    obtain ⟨k, x⟩ := p
    have h2 : x.negZeroFree = true ∧ negZeroFreeMembers t = true := by
      simpa [negZeroFreeMembers] using h
    rw [plusZeroMembers, JSON.plusZero_of_negZeroFree x h2.1,
      plusZeroMembers_of_negZeroFree t h2.2]
end

theorem JSON.plusZero_ne_null (v : JSON) (h : v ≠ JSON.null) : v.plusZero ≠ JSON.null := by
  cases v with
  | null => exact absurd rfl h
  | bool b => simp [JSON.plusZero]
  | num x => simp [JSON.plusZero]
  | str s => simp [JSON.plusZero]
  | arr xs => simp [JSON.plusZero]
  | obj kvs => simp [JSON.plusZero]

theorem JSON.stringify_ne_nil (v : JSON) (hv : v.wf = true) : JSON.stringify v ≠ [] := by
  obtain ⟨c, t, e, _⟩ := serialize_head v hv
  simp [JSON.stringify, e]

/-! ### The recursion bound of `JSON.parse` -/

theorem skipWS_length_le (cs : JSString) : (skipWS cs).length ≤ cs.length := by
  induction cs with
  | nil => simp [skipWS]
  | cons c t ih =>
    simp only [skipWS]
    split
    · simp only [List.length_cons]; omega
    · simp

theorem expect_length_le (p cs r : JSString) (h : expect p cs = some r) :
    r.length ≤ cs.length := by
  induction p generalizing cs with
  | nil => simp [expect] at h; subst h; simp
  | cons a p ih =>
    cases cs with
    | nil => simp [expect] at h
    | cons c t =>
      simp only [expect] at h
      split at h
      · have := ih t h
        simp only [List.length_cons]; omega
      · cases h

theorem parseStringBody_length_aux (n : Nat) :
    ∀ cs : JSString, cs.length ≤ n →
      ∀ s r, parseStringBody cs = some (s, r) → r.length ≤ cs.length := by
  induction n with
  | zero =>
    intro cs hn s r h
    cases cs with
    | nil => simp [parseStringBody] at h
    | cons c t => simp at hn
  | succ n ih =>
    intro cs hn s r h
    rw [parseStringBody.eq_def] at h
    cases cs with
    | nil => simp at h
    | cons c rest =>
      simp only [List.length_cons] at hn ⊢
      simp only at h
      split at h
      · simp only [Option.some.injEq, Prod.mk.injEq] at h
        rw [← h.2]; omega
      · split at h
        · split at h
          · cases h
          · rename_i e rest2
            simp only [List.length_cons] at hn ⊢
            split at h
            · split at h
              · rename_i h1 h2 h3 h4 rest3
                simp only [List.length_cons] at hn ⊢
                split at h
                · split at h
                  · rename_i s2 r2 hp
                    simp only [Option.some.injEq, Prod.mk.injEq] at h
                    have := ih rest3 (by omega) s2 r2 hp
                    rw [← h.2]; omega
                  · cases h
                · cases h
              · cases h
            · split at h
              · split at h
                · rename_i s2 r2 hp
                  simp only [Option.some.injEq, Prod.mk.injEq] at h
                  have := ih rest2 (by omega) s2 r2 hp
                  rw [← h.2]; omega
                · cases h
              · cases h
        · split at h
          · cases h
          · split at h
            · rename_i s2 r2 hp
              simp only [Option.some.injEq, Prod.mk.injEq] at h
              have := ih rest (by omega) s2 r2 hp
              rw [← h.2]; omega
            · cases h

theorem parseStringBody_length_le (cs s r : JSString) (h : parseStringBody cs = some (s, r)) :
    r.length ≤ cs.length :=
  parseStringBody_length_aux cs.length cs (Nat.le_refl _) s r h

theorem takeDigits_length_le (cs : JSString) : (takeDigits cs).2.length ≤ cs.length := by
  induction cs with
  | nil => simp [takeDigits]
  | cons c t ih =>
    simp only [takeDigits]
    split
    · simp only [List.length_cons]; omega
    · simp

theorem parseInt_length_lt (cs : JSString) (ds : List Nat) (r : JSString)
    (h : parseInt cs = some (ds, r)) : r.length < cs.length := by
  cases cs with
  | nil => simp [parseInt] at h
  | cons c t =>
    simp only [parseInt] at h
    have ht := takeDigits_length_le t
    split at h
    · simp only [Option.some.injEq, Prod.mk.injEq] at h
      rw [← h.2]; simp
    · split at h
      · simp only [Option.some.injEq, Prod.mk.injEq] at h
        rw [← h.2]; simp only [List.length_cons]; omega
      · cases h

theorem parseFrac_length_le (cs : JSString) (ds : List Nat) (r : JSString)
    (h : parseFrac cs = some (ds, r)) : r.length ≤ cs.length := by
  cases cs with
  | nil => simp [parseFrac] at h; simp [← h.2]
  | cons c t =>
    simp only [parseFrac] at h
    have ht := takeDigits_length_le t
    split at h
    · split at h
      · cases h
      · simp only [Option.some.injEq] at h
        rw [h] at ht
        simp only [List.length_cons]; simp only at ht; omega
    · simp only [Option.some.injEq, Prod.mk.injEq] at h
      rw [← h.2]

theorem parseExpDigits_length_le (neg : Bool) (cs : JSString) (e : Int) (r : JSString)
    (h : parseExpDigits neg cs = some (e, r)) : r.length ≤ cs.length := by
  simp only [parseExpDigits] at h
  have ht := takeDigits_length_le cs
  split at h
  · cases h
  · simp only [Option.some.injEq, Prod.mk.injEq] at h
    rw [← h.2]; exact ht

theorem parseExp_length_le (cs : JSString) (e : Int) (r : JSString)
    (h : parseExp cs = some (e, r)) : r.length ≤ cs.length := by
  cases cs with
  | nil => simp [parseExp] at h; simp [← h.2]
  | cons c t =>
    simp only [parseExp] at h
    split at h
    · split at h
      · cases h
      · rename_i s rest2
        simp only [List.length_cons]
        split at h
        · have := parseExpDigits_length_le _ _ _ _ h; omega
        · split at h
          · have := parseExpDigits_length_le _ _ _ _ h; omega
          · have := parseExpDigits_length_le _ _ _ _ h
            simp only [List.length_cons] at this; omega
    · simp only [Option.some.injEq, Prod.mk.injEq] at h
      rw [← h.2]

theorem parseUnsigned_length_lt (neg : Bool) (cs : JSString) (x : JNum) (r : JSString)
    (h : parseUnsigned neg cs = some (x, r)) : r.length < cs.length := by
  simp only [parseUnsigned] at h
  split at h
  · cases h
  · rename_i ip cs2 h1
    split at h
    · cases h
    · rename_i fp cs3 h2
      split at h
      · cases h
      · rename_i e cs4 h3
        simp only [Option.some.injEq, Prod.mk.injEq] at h
        have a1 := parseInt_length_lt _ _ _ h1
        have a2 := parseFrac_length_le _ _ _ h2
        have a3 := parseExp_length_le _ _ _ h3
        rw [← h.2]; omega

theorem parseNumber_length_lt (cs : JSString) (x : JNum) (r : JSString)
    (h : parseNumber cs = some (x, r)) : r.length < cs.length := by
  cases cs with
  | nil => simp [parseNumber] at h
  | cons c t =>
    simp only [parseNumber] at h
    split at h
    · have := parseUnsigned_length_lt _ _ _ _ h
      simp only [List.length_cons]; omega
    · exact parseUnsigned_length_lt _ _ _ _ h

theorem parseValue_fuel_step (f : Nat)
    (ihE : ∀ cs vs r, parseElements f cs = some (vs, r) →
      r.length < cs.length ∧
        ∀ g, cs.length - r.length ≤ g → parseElements g cs = some (vs, r))
    (ihM : ∀ cs ms r, parseMembers f cs = some (ms, r) →
      r.length < cs.length ∧
        ∀ g, cs.length - r.length ≤ g → parseMembers g cs = some (ms, r)) :
    ∀ cs v r, parseValue (f + 1) cs = some (v, r) →
      r.length < cs.length ∧
        ∀ g, cs.length - r.length ≤ g → parseValue g cs = some (v, r) := by
  intro cs v r h
  have hlen := skipWS_length_le cs
  rw [parseValue] at h
  cases hs : skipWS cs with
  | nil => rw [hs] at h; cases h
  | cons c rest =>
    rw [hs] at h hlen
    simp only [List.length_cons] at hlen
    simp only at h
    -- the text left over is shorter than the text after the first character
    have key : r.length ≤ rest.length ∧
        ∀ g, rest.length - r.length ≤ g → parseValue (g + 1) cs = some (v, r) := by
      by_cases h110 : c = 110
      · simp only [h110, if_true] at h
        obtain ⟨r2, h2, e⟩ := Option.map_eq_some'.mp h
        simp only [Prod.mk.injEq] at e
        refine ⟨by rw [← e.2]; exact expect_length_le _ _ _ h2, fun g _ => ?_⟩
        rw [parseValue, hs]
        simp only [h110, if_true]
        exact h
      by_cases h116 : c = 116
      · simp only [h116, if_true, if_false, Nat.reduceEqDiff] at h
        obtain ⟨r2, h2, e⟩ := Option.map_eq_some'.mp h
        simp only [Prod.mk.injEq] at e
        refine ⟨by rw [← e.2]; exact expect_length_le _ _ _ h2, fun g _ => ?_⟩
        rw [parseValue, hs]
        simp only [h116, if_true, if_false, Nat.reduceEqDiff]
        exact h
      by_cases h102 : c = 102
      · simp only [h102, if_true, if_false, Nat.reduceEqDiff] at h
        obtain ⟨r2, h2, e⟩ := Option.map_eq_some'.mp h
        simp only [Prod.mk.injEq] at e
        refine ⟨by rw [← e.2]; exact expect_length_le _ _ _ h2, fun g _ => ?_⟩
        rw [parseValue, hs]
        simp only [h102, if_true, if_false, Nat.reduceEqDiff]
        exact h
      by_cases h34 : c = 34
      · simp only [h34, if_true, if_false, Nat.reduceEqDiff] at h
        obtain ⟨p, h2, e⟩ := Option.map_eq_some'.mp h
        obtain ⟨s2, r2⟩ := p
        simp only [Prod.mk.injEq] at e
        refine ⟨by rw [← e.2]; exact parseStringBody_length_le _ _ _ h2, fun g _ => ?_⟩
        rw [parseValue, hs]
        simp only [h34, if_true, if_false, Nat.reduceEqDiff]
        exact h
      by_cases h91 : c = 91
      · simp only [h91, if_true, if_false, Nat.reduceEqDiff] at h
        have hl2 := skipWS_length_le rest
        cases hs2 : skipWS rest with
        | nil => rw [hs2] at h; cases h
        | cons d rest2 =>
          rw [hs2] at h hl2
          simp only [List.length_cons] at hl2
          simp only at h
          by_cases h93 : d = 93
          · simp only [h93, if_true, Option.some.injEq, Prod.mk.injEq] at h
            refine ⟨by rw [← h.2]; omega, fun g _ => ?_⟩
            rw [parseValue, hs]
            simp only [h91, if_true, if_false, Nat.reduceEqDiff, hs2, h93]
            rw [← h.1, ← h.2]
          · simp only [h93, if_false] at h
            obtain ⟨p, h2, e⟩ := Option.map_eq_some'.mp h
            obtain ⟨xs, r2⟩ := p
            simp only [Prod.mk.injEq] at e
            obtain ⟨a1, a2⟩ := ihE _ _ _ h2
            simp only [List.length_cons] at a1 a2
            refine ⟨by rw [← e.2]; omega, fun g hg => ?_⟩
            rw [parseValue, hs]
            simp only [h91, if_true, if_false, Nat.reduceEqDiff, hs2, h93]
            rw [a2 g (by rw [← e.2] at hg; omega), ← e.1, ← e.2]
            rfl
      by_cases h123 : c = 123
      · simp only [h123, if_true, if_false, Nat.reduceEqDiff] at h
        have hl2 := skipWS_length_le rest
        cases hs2 : skipWS rest with
        | nil => rw [hs2] at h; cases h
        | cons d rest2 =>
          rw [hs2] at h hl2
          simp only [List.length_cons] at hl2
          simp only at h
          by_cases h125 : d = 125
          · simp only [h125, if_true, Option.some.injEq, Prod.mk.injEq] at h
            refine ⟨by rw [← h.2]; omega, fun g _ => ?_⟩
            rw [parseValue, hs]
            simp only [h123, if_true, if_false, Nat.reduceEqDiff, hs2, h125]
            rw [← h.1, ← h.2]
          · simp only [h125, if_false] at h
            obtain ⟨p, h2, e⟩ := Option.map_eq_some'.mp h
            obtain ⟨xs, r2⟩ := p
            simp only [Prod.mk.injEq] at e
            obtain ⟨a1, a2⟩ := ihM _ _ _ h2
            simp only [List.length_cons] at a1 a2
            refine ⟨by rw [← e.2]; omega, fun g hg => ?_⟩
            rw [parseValue, hs]
            simp only [h123, if_true, if_false, Nat.reduceEqDiff, hs2, h125]
            rw [a2 g (by rw [← e.2] at hg; omega), ← e.1, ← e.2]
            rfl
      simp only [h110, h116, h102, h34, h91, h123, if_false] at h
      obtain ⟨p, h2, e⟩ := Option.map_eq_some'.mp h
      obtain ⟨x, r2⟩ := p
      simp only [Prod.mk.injEq] at e
      have a1 := parseNumber_length_lt _ _ _ h2
      simp only [List.length_cons] at a1
      refine ⟨by rw [← e.2]; omega, fun g _ => ?_⟩
      rw [parseValue, hs]
      simp only [h110, h116, h102, h34, h91, h123, if_false]
      exact h
    refine ⟨by omega, fun g hg => ?_⟩
    obtain ⟨g2, rfl⟩ : ∃ g2, g = g2 + 1 := ⟨g - 1, by omega⟩
    exact key.2 g2 (by omega)

theorem parseElements_fuel_step (f : Nat)
    (ihV : ∀ cs v r, parseValue f cs = some (v, r) →
      r.length < cs.length ∧ ∀ g, cs.length - r.length ≤ g → parseValue g cs = some (v, r))
    (ihE : ∀ cs vs r, parseElements f cs = some (vs, r) →
      r.length < cs.length ∧
        ∀ g, cs.length - r.length ≤ g → parseElements g cs = some (vs, r)) :
    ∀ cs vs r, parseElements (f + 1) cs = some (vs, r) →
      r.length < cs.length ∧
        ∀ g, cs.length - r.length ≤ g → parseElements g cs = some (vs, r) := by
  intro cs vs r h
  rw [parseElements] at h
  cases hv : parseValue f cs with
  | none => rw [hv] at h; cases h
  | some p =>
    obtain ⟨v, r1⟩ := p
    rw [hv] at h
    simp only at h
    obtain ⟨a1, a2⟩ := ihV _ _ _ hv
    have hl := skipWS_length_le r1
    cases hs : skipWS r1 with
    | nil => rw [hs] at h; cases h
    | cons d r2 =>
      rw [hs] at h hl
      simp only [List.length_cons] at hl
      simp only at h
      by_cases h44 : d = 44
      · simp only [h44, if_true] at h
        obtain ⟨q, h2, e⟩ := Option.map_eq_some'.mp h
        obtain ⟨ws, r3⟩ := q
        simp only [Prod.mk.injEq] at e
        obtain ⟨b1, b2⟩ := ihE _ _ _ h2
        rw [← e.2]
        refine ⟨by omega, fun g hg => ?_⟩
        obtain ⟨g2, rfl⟩ : ∃ g2, g = g2 + 1 := ⟨g - 1, by omega⟩
        rw [parseElements, a2 g2 (by omega)]
        simp only [hs, h44, if_true]
        rw [b2 g2 (by omega), ← e.1]
        rfl
      · by_cases h93 : d = 93
        · simp only [h93, if_true, if_false, Nat.reduceEqDiff, Option.some.injEq,
            Prod.mk.injEq] at h
          rw [← h.2]
          refine ⟨by omega, fun g hg => ?_⟩
          obtain ⟨g2, rfl⟩ : ∃ g2, g = g2 + 1 := ⟨g - 1, by omega⟩
          rw [parseElements, a2 g2 (by omega)]
          simp only [hs, h93, if_true, if_false, Nat.reduceEqDiff]
          rw [← h.1]
        · simp only [h44, h93, if_false] at h
          cases h

theorem parseMembers_fuel_step (f : Nat)
    (ihV : ∀ cs v r, parseValue f cs = some (v, r) →
      r.length < cs.length ∧ ∀ g, cs.length - r.length ≤ g → parseValue g cs = some (v, r))
    (ihM : ∀ cs ms r, parseMembers f cs = some (ms, r) →
      r.length < cs.length ∧
        ∀ g, cs.length - r.length ≤ g → parseMembers g cs = some (ms, r)) :
    ∀ cs ms r, parseMembers (f + 1) cs = some (ms, r) →
      r.length < cs.length ∧
        ∀ g, cs.length - r.length ≤ g → parseMembers g cs = some (ms, r) := by
  intro cs ms r h
  rw [parseMembers] at h
  have hl0 := skipWS_length_le cs
  cases hs0 : skipWS cs with
  | nil => rw [hs0] at h; cases h
  | cons q r0 =>
    rw [hs0] at h hl0
    simp only [List.length_cons] at hl0
    simp only at h
    by_cases hq : q = 34
    · simp only [hq, if_true] at h
      cases hk : parseStringBody r0 with
      | none => rw [hk] at h; cases h
      | some pk =>
        obtain ⟨k, r1⟩ := pk
        rw [hk] at h
        simp only at h
        have hlk := parseStringBody_length_le _ _ _ hk
        have hl1 := skipWS_length_le r1
        cases hs1 : skipWS r1 with
        | nil => rw [hs1] at h; cases h
        | cons col r2 =>
          rw [hs1] at h hl1
          simp only [List.length_cons] at hl1
          simp only at h
          by_cases hcol : col = 58
          · simp only [hcol, if_true] at h
            cases hv : parseValue f r2 with
            | none => rw [hv] at h; cases h
            | some pv =>
              obtain ⟨v, r3⟩ := pv
              rw [hv] at h
              simp only at h
              obtain ⟨a1, a2⟩ := ihV _ _ _ hv
              have hl3 := skipWS_length_le r3
              cases hs3 : skipWS r3 with
              | nil => rw [hs3] at h; cases h
              | cons d r4 =>
                rw [hs3] at h hl3
                simp only [List.length_cons] at hl3
                simp only at h
                by_cases h44 : d = 44
                · simp only [h44, if_true] at h
                  obtain ⟨p, h2, e⟩ := Option.map_eq_some'.mp h
                  obtain ⟨ws, r5⟩ := p
                  simp only [Prod.mk.injEq] at e
                  obtain ⟨b1, b2⟩ := ihM _ _ _ h2
                  rw [← e.2]
                  refine ⟨by omega, fun g hg => ?_⟩
                  obtain ⟨g2, rfl⟩ : ∃ g2, g = g2 + 1 := ⟨g - 1, by omega⟩
                  rw [parseMembers]
                  simp only [hs0, hq, if_true, hk, hs1, hcol]
                  rw [a2 g2 (by omega)]
                  simp only [hs3, h44, if_true]
                  rw [b2 g2 (by omega), ← e.1]
                  rfl
                · by_cases h125 : d = 125
                  · simp only [h125, if_true, if_false, Nat.reduceEqDiff, Option.some.injEq,
                      Prod.mk.injEq] at h
                    rw [← h.2]
                    refine ⟨by omega, fun g hg => ?_⟩
                    obtain ⟨g2, rfl⟩ : ∃ g2, g = g2 + 1 := ⟨g - 1, by omega⟩
                    rw [parseMembers]
                    simp only [hs0, hq, if_true, hk, hs1, hcol]
                    rw [a2 g2 (by omega)]
                    simp only [hs3, h125, if_true, if_false, Nat.reduceEqDiff]
                    rw [← h.1]
                  · simp only [h44, h125, if_false] at h
                    cases h
          · simp only [hcol, if_false] at h
            cases h
    · simp only [hq, if_false] at h
      cases h

theorem parse_fuel (f : Nat) :
    (∀ cs v r, parseValue f cs = some (v, r) →
      r.length < cs.length ∧ ∀ g, cs.length - r.length ≤ g → parseValue g cs = some (v, r)) ∧
    (∀ cs vs r, parseElements f cs = some (vs, r) →
      r.length < cs.length ∧
        ∀ g, cs.length - r.length ≤ g → parseElements g cs = some (vs, r)) ∧
    (∀ cs ms r, parseMembers f cs = some (ms, r) →
      r.length < cs.length ∧
        ∀ g, cs.length - r.length ≤ g → parseMembers g cs = some (ms, r)) := by
  induction f with
  | zero =>
    refine ⟨?_, ?_, ?_⟩
    · intro cs v r h; rw [parseValue] at h; cases h
    · intro cs v r h; rw [parseElements] at h; cases h
    · intro cs v r h; rw [parseMembers] at h; cases h
  | succ f ih =>
    exact ⟨parseValue_fuel_step f ih.2.1 ih.2.2, parseElements_fuel_step f ih.1 ih.2.1,
      parseMembers_fuel_step f ih.1 ih.2.2⟩

/-- The recursion bound of `JSON.parse` is never the reason for an error: a
text that is read as a JSON text with some bound is read so by
`JSON.parse`. -/
theorem JSON.parse_of_parseValue (fuel : Nat) (text : JSString) (v : JSON) (r : JSString)
    (h : parseValue fuel text = some (v, r)) (hr : skipWS r = []) :
    JSON.parse text = Except.ok v := by
  obtain ⟨_, a2⟩ := (parse_fuel fuel).1 _ _ _ h
  simp [JSON.parse, a2 (text.length + 1) (by omega), hr]

/-! ### Storage -/

theorem getItem_setItem_same (store : Storage) (k v : JSString) :
    localStorage.getItem (localStorage.setItem store k v) k = some v := by
  induction store with
  | nil => simp [localStorage.setItem, localStorage.getItem]
  | cons e rest ih =>
    obtain ⟨k2, v2⟩ := e
    by_cases h : k2 = k
    · simp [localStorage.setItem, localStorage.getItem, h]
    · simp [localStorage.setItem, localStorage.getItem, h, ih]

theorem getItem_setItem_other (store : Storage) (k v k2 : JSString) (h : k2 ≠ k) :
    localStorage.getItem (localStorage.setItem store k v) k2 =
      localStorage.getItem store k2 := by
  induction store with
  | nil => simp [localStorage.setItem, localStorage.getItem, Ne.symm h]
  | cons e rest ih =>
    obtain ⟨k3, v3⟩ := e
    by_cases h3 : k3 = k
    · subst h3
      simp [localStorage.setItem, localStorage.getItem, Ne.symm h]
    · simp [localStorage.setItem, localStorage.getItem, h3, ih]

theorem removeItem_cons (k2 v2 : JSString) (rest : Storage) (k : JSString) :
    localStorage.removeItem ((k2, v2) :: rest) k =
      if k2 = k then localStorage.removeItem rest k
      else (k2, v2) :: localStorage.removeItem rest k := by
  by_cases h : k2 = k <;> simp [localStorage.removeItem, List.filter, h]

theorem getItem_removeItem_same (store : Storage) (k : JSString) :
    localStorage.getItem (localStorage.removeItem store k) k = none := by
  induction store with
  | nil => rfl
  | cons e rest ih =>
    obtain ⟨k2, v2⟩ := e
    rw [removeItem_cons]
    by_cases h : k2 = k
    · rw [if_pos h]; exact ih
    · rw [if_neg h]; simp [localStorage.getItem, h, ih]

theorem getItem_removeItem_other (store : Storage) (k k2 : JSString) (h : k2 ≠ k) :
    localStorage.getItem (localStorage.removeItem store k) k2 =
      localStorage.getItem store k2 := by
  induction store with
  | nil => rfl
  | cons e rest ih =>
    obtain ⟨k3, v3⟩ := e
    rw [removeItem_cons]
    by_cases h3 : k3 = k
    · rw [if_pos h3]
      have h4 : k3 ≠ k2 := fun e => h (e ▸ h3)
      simp [localStorage.getItem, h4, ih]
    · rw [if_neg h3]
      simp [localStorage.getItem, ih]

theorem removeItem_of_getItem_none (store : Storage) (k : JSString)
    (h : localStorage.getItem store k = none) : localStorage.removeItem store k = store := by
  induction store with
  | nil => rfl
  | cons e rest ih =>
    obtain ⟨k2, v2⟩ := e
    rw [removeItem_cons]
    by_cases h2 : k2 = k
    · simp [localStorage.getItem, h2] at h
    · simp only [localStorage.getItem, h2, if_false] at h
      rw [if_neg h2, ih h]

theorem setItem_setItem (store : Storage) (k v1 v2 : JSString) :
    localStorage.setItem (localStorage.setItem store k v1) k v2 =
      localStorage.setItem store k v2 := by
  induction store with
  | nil => simp [localStorage.setItem]
  | cons e rest ih =>
    obtain ⟨k2, v2⟩ := e
    by_cases h : k2 = k
    · simp [localStorage.setItem, h]
    · simp [localStorage.setItem, h, ih]

/-! ### The script -/

theorem startup_of_falsy (store : Storage)
    (h : truthy (localStorage.getItem store modelKey) = false) :
    startup store = ⟨store, Call.getItem modelKey :: startApp JSON.null, Except.ok JSON.null⟩ := by
  simp [startup, h]

theorem startup_of_text (store : Storage) (text : JSString)
    (h : localStorage.getItem store modelKey = some text) (hne : text ≠ []) :
    startup store =
      match JSON.parse text with
      | Except.ok startingState =>
        ⟨store, Call.getItem modelKey :: Call.jsonParse text :: startApp startingState,
          Except.ok startingState⟩
      | Except.error err =>
        ⟨store, [Call.getItem modelKey, Call.jsonParse text], Except.error err⟩ := by
  obtain ⟨c, t, rfl⟩ := List.exists_cons_of_ne_nil hne
  simp [startup, h, truthy]

theorem startup_after_save (store : Storage) (v : JSON) (hv : v.wf = true) :
    startup (setStorageHandler v store).storage =
      ⟨(setStorageHandler v store).storage,
        Call.getItem modelKey :: Call.jsonParse (JSON.stringify v) :: startApp v.plusZero,
        Except.ok v.plusZero⟩ := by
  rw [startup_of_text _ (JSON.stringify v)
    (by simp [setStorageHandler, getItem_setItem_same]) (JSON.stringify_ne_nil v hv),
    JSON.parse_stringify v hv]


theorem initFlags_after_save (store : Storage) (v : JSON) (hv : v.wf = true) :
    initFlags (startup (setStorageHandler v store).storage).calls = [v.plusZero] := by
  rw [startup_after_save store v hv]
  simp [initFlags, startApp]

/-! ## The claims -/

/-- C1, as stated, fails: the number `-0` is written `0` by `JSON.stringify`,
so after the `setStorage` handler has run with `-0` the entry is the text `0`
and the script passes `+0`, not `-0`, as flags. -/
theorem C1_negative_zero_is_read_back_positive :
    (JSON.num (JNum.zero true)).wf = true ∧
      localStorage.getItem (setStorageHandler (JSON.num (JNum.zero true)) []).storage modelKey
        = some (lit "0") ∧
      initFlags (startup (setStorageHandler (JSON.num (JNum.zero true)) []).storage).calls
        = [JSON.num (JNum.zero false)] ∧
      initFlags (startup (setStorageHandler (JSON.num (JNum.zero true)) []).storage).calls
        ≠ [JSON.num (JNum.zero true)] := by
  refine ⟨by decide, by decide, by rfl, ?_⟩
  rw [initFlags_after_save [] _ (by decide)]
  simp [JSON.plusZero, JNum.plusZero]

/-- C1, amended (round trip): for every storage state and every
JSON-serializable value `V` in which no number is `-0`, after the
`setStorage` handler has run with `V` the entry under `"model"` is
`JSON.stringify(V)`, decoding that text gives `V`, and the script, run on the
resulting storage, decodes the entry and passes exactly `V` as flags. -/
theorem C1_save_then_startup_round_trip (store : Storage) (V : JSON) (hV : V.wf = true)
    (hz : V.negZeroFree = true) :
    localStorage.getItem (setStorageHandler V store).storage modelKey
        = some (JSON.stringify V) ∧
      JSON.parse (JSON.stringify V) = Except.ok V ∧
      (startup (setStorageHandler V store).storage).result = Except.ok V ∧
      initFlags (startup (setStorageHandler V store).storage).calls = [V] := by
  have e := JSON.plusZero_of_negZeroFree V hz
  refine ⟨by simp [setStorageHandler, getItem_setItem_same], ?_, ?_, ?_⟩
  · rw [JSON.parse_stringify V hV, e]
  · rw [startup_after_save store V hV, e]
  · rw [initFlags_after_save store V hV, e]

/-- Witness for C1: the value `[{"count":1,"name":"a\"b"},-12.5,0,null]`
saved over an older entry. -/
theorem C1_save_then_startup_round_trip_witness :
    (JSON.arr [JSON.obj [(lit "count", JSON.num (JNum.dec false [1] 1)),
        (lit "name", JSON.str (lit "a\"b"))],
      JSON.num (JNum.dec true [1, 2, 5] 2), JSON.num (JNum.zero false), JSON.null]).wf
        = true ∧
    (JSON.arr [JSON.obj [(lit "count", JSON.num (JNum.dec false [1] 1)),
        (lit "name", JSON.str (lit "a\"b"))],
      JSON.num (JNum.dec true [1, 2, 5] 2), JSON.num (JNum.zero false),
      JSON.null]).negZeroFree = true ∧
    initFlags (startup (setStorageHandler
      (JSON.arr [JSON.obj [(lit "count", JSON.num (JNum.dec false [1] 1)),
        (lit "name", JSON.str (lit "a\"b"))],
      JSON.num (JNum.dec true [1, 2, 5] 2), JSON.num (JNum.zero false), JSON.null])
      [(lit "other", lit "x"), (modelKey, lit "0")]).storage).calls =
      [JSON.arr [JSON.obj [(lit "count", JSON.num (JNum.dec false [1] 1)),
        (lit "name", JSON.str (lit "a\"b"))],
      JSON.num (JNum.dec true [1, 2, 5] 2), JSON.num (JNum.zero false), JSON.null]] :=
  ⟨by decide, by decide,
    (C1_save_then_startup_round_trip _ _ (by decide) (by decide)).2.2.2⟩

/-- C2 (absence on first run): when storage has no entry under `"model"`, the
script makes no `JSON.parse` call and starts the application with the flags
`null`: its calls are `getItem("model")`, the lookup of `root`,
`Elm.Main.init` with `null`, the two subscriptions and
`registerServiceWorker()`. -/
theorem C2_absent_entry_gives_null_flags (store : Storage)
    (h : localStorage.getItem store modelKey = none) :
    (startup store).result = Except.ok JSON.null ∧
      initFlags (startup store).calls = [JSON.null] ∧
      (∀ text, Call.jsonParse text ∉ (startup store).calls) ∧
      (startup store).calls =
        [Call.getItem modelKey, Call.getElementById rootId, Call.elmMainInit JSON.null,
          Call.subscribe Port.setStorage, Call.subscribe Port.removeStorage,
          Call.registerServiceWorker] := by
  rw [startup_of_falsy store (by rw [h]; rfl)]
  simp [initFlags, startApp]

/-- Witness for C2: a storage that holds only an entry under another key. -/
theorem C2_absent_entry_gives_null_flags_witness :
    localStorage.getItem [(lit "theme", lit "dark")] modelKey = none ∧
      initFlags (startup [(lit "theme", lit "dark")]).calls = [JSON.null] :=
  ⟨by decide, (C2_absent_entry_gives_null_flags _ (by decide)).2.1⟩

/-- C3, as stated, fails: with the empty string stored under `"model"` an
entry exists, yet the script does not call `JSON.parse` and passes `null`. -/
theorem C3_empty_entry_is_not_decoded :
    localStorage.getItem [(modelKey, [])] modelKey = some [] ∧
      Call.jsonParse [] ∉ (startup [(modelKey, [])]).calls ∧
      (startup [(modelKey, [])]).calls =
        [Call.getItem modelKey, Call.getElementById rootId, Call.elmMainInit JSON.null,
          Call.subscribe Port.setStorage, Call.subscribe Port.removeStorage,
          Call.registerServiceWorker] ∧
      initFlags (startup [(modelKey, [])]).calls = [JSON.null] := by
  refine ⟨by decide, ?_, ?_, ?_⟩
  · rw [startup_of_falsy _ (by decide)]
    simp [startApp]
  · rw [startup_of_falsy _ (by decide)]
    rfl
  · rw [startup_of_falsy _ (by decide)]
    simp [initFlags, startApp]

/-- C3, amended: when the entry under `"model"` is a non-empty text, the
script calls `JSON.parse` on it once, right after `getItem`, its result is the
result of the decoding, and a decoded value is passed as flags; when the entry
is the empty string, the script decodes nothing and passes `null`, as it does
when there is no entry. -/
theorem C3_non_empty_entry_is_decoded (store : Storage) (text : JSString)
    (h : localStorage.getItem store modelKey = some text) :
    (text ≠ [] →
      (startup store).calls.take 2 = [Call.getItem modelKey, Call.jsonParse text] ∧
      (startup store).result = JSON.parse text ∧
      (∀ v, JSON.parse text = Except.ok v → initFlags (startup store).calls = [v])) ∧
    (text = [] →
      (∀ t, Call.jsonParse t ∉ (startup store).calls) ∧
      initFlags (startup store).calls = [JSON.null]) := by
  constructor
  · intro hne
    rw [startup_of_text store text h hne]
    cases hp : JSON.parse text with
    | error e => simp
    | ok v => simp [initFlags, startApp]
  · intro he
    subst he
    rw [startup_of_falsy store (by rw [h]; rfl)]
    simp [initFlags, startApp]

/-- Witness for C3: the entry `{"count":1}`. -/
theorem C3_non_empty_entry_is_decoded_witness :
    localStorage.getItem [(modelKey, lit "\x7b\"count\":1\x7d")] modelKey
        = some (lit "\x7b\"count\":1\x7d") ∧
      initFlags (startup [(modelKey, lit "\x7b\"count\":1\x7d")]).calls =
        [JSON.obj [(lit "count", JSON.num (JNum.dec false [1] 1))]] :=
  ⟨by decide,
    ((C3_non_empty_entry_is_decoded [(modelKey, lit "\x7b\"count\":1\x7d")] (lit "\x7b\"count\":1\x7d")
      (by decide)).1 (by decide)).2.2 _ (by rfl)⟩

/-- C4 (clear removes): after the `setStorage` handler with any value and
then the `removeStorage` handler, storage has no entry under `"model"`; and
on a storage with no such entry the `removeStorage` handler leaves storage as
it is. -/
theorem C4_clear_removes_the_entry (store : Storage) (V : JSON) :
    localStorage.getItem
        (removeStorageHandler (setStorageHandler V store).storage).storage modelKey = none ∧
      (localStorage.getItem store modelKey = none →
        (removeStorageHandler store).storage = store) := by
  constructor
  · simp [removeStorageHandler, getItem_removeItem_same]
  · intro h
    simp [removeStorageHandler, removeItem_of_getItem_none store modelKey h]

/-- Witness for C4: clearing a storage that holds only an entry under
another key. -/
theorem C4_clear_removes_the_entry_witness :
    localStorage.getItem [(lit "theme", lit "dark")] modelKey = none ∧
      (removeStorageHandler [(lit "theme", lit "dark")]).storage
        = [(lit "theme", lit "dark")] :=
  ⟨by decide, (C4_clear_removes_the_entry [(lit "theme", lit "dark")] JSON.null).2 (by decide)⟩

/-- C5 (last write wins): after the `setStorage` handler with `V1` and then
with `V2`, the entry under `"model"` is `JSON.stringify(V2)` and the storage
is the one the handler with `V2` alone produces. -/
theorem C5_last_write_wins (store : Storage) (V1 V2 : JSON) :
    localStorage.getItem
        (setStorageHandler V2 (setStorageHandler V1 store).storage).storage modelKey
        = some (JSON.stringify V2) ∧
      (setStorageHandler V2 (setStorageHandler V1 store).storage).storage
        = (setStorageHandler V2 store).storage := by
  simp [setStorageHandler, getItem_setItem_same, setItem_setItem]

/-- C6 (no cross-contamination): for a key `k` other than `"model"`, the
script and both handlers leave the entry under `k`, or its absence, as it
was, and none of them makes a `getItem`, `setItem` or `removeItem` call on
`k`. -/
theorem C6_other_keys_untouched (store : Storage) (k : JSString) (hk : k ≠ modelKey)
    (V : JSON) :
    (localStorage.getItem (startup store).storage k = localStorage.getItem store k ∧
      localStorage.getItem (setStorageHandler V store).storage k
        = localStorage.getItem store k ∧
      localStorage.getItem (removeStorageHandler store).storage k
        = localStorage.getItem store k) ∧
    (∀ c, c ∈ (startup store).calls ∨ c ∈ (setStorageHandler V store).calls ∨
        c ∈ (removeStorageHandler store).calls →
      c ≠ Call.getItem k ∧ (∀ v, c ≠ Call.setItem k v) ∧ c ≠ Call.removeItem k) := by
  have hs : (startup store).storage = store ∧
      ∀ c ∈ (startup store).calls,
        c ≠ Call.getItem k ∧ (∀ v, c ≠ Call.setItem k v) ∧ c ≠ Call.removeItem k := by
    unfold startup
    simp only
    split
    · split
      · split
        · refine ⟨rfl, ?_⟩
          intro c hc
          simp only [startApp, List.mem_cons, List.mem_singleton, List.mem_nil_iff,
            or_false] at hc
          rcases hc with e | e | e | e | e | e | e <;> subst e <;> simp [Ne.symm hk]
        · refine ⟨rfl, ?_⟩
          intro c hc
          simp only [List.mem_cons, List.mem_singleton, List.mem_nil_iff, or_false] at hc
          rcases hc with e | e <;> subst e <;> simp [Ne.symm hk]
      · refine ⟨rfl, ?_⟩
        intro c hc
        simp only [startApp, List.mem_cons, List.mem_singleton, List.mem_nil_iff,
          or_false] at hc
        rcases hc with e | e | e | e | e | e <;> subst e <;> simp [Ne.symm hk]
    · refine ⟨rfl, ?_⟩
      intro c hc
      simp only [startApp, List.mem_cons, List.mem_singleton, List.mem_nil_iff,
        or_false] at hc
      rcases hc with e | e | e | e | e | e <;> subst e <;> simp [Ne.symm hk]
  refine ⟨⟨by rw [hs.1], ?_, ?_⟩, ?_⟩
  · simp [setStorageHandler, getItem_setItem_other _ _ _ _ hk]
  · simp [removeStorageHandler, getItem_removeItem_other _ _ _ hk]
  · intro c hc
    rcases hc with hc | hc | hc
    · exact hs.2 c hc
    · simp only [setStorageHandler, List.mem_cons, List.mem_singleton, List.mem_nil_iff,
        or_false] at hc
      rcases hc with e | e <;> subst e <;> simp [Ne.symm hk]
    · simp only [removeStorageHandler, List.mem_cons, List.mem_singleton, List.mem_nil_iff,
        or_false] at hc
      subst hc
      simp [Ne.symm hk]

/-- Witness for C6: the key `"theme"` next to a stored model. -/
theorem C6_other_keys_untouched_witness :
    lit "theme" ≠ modelKey ∧
      localStorage.getItem
        (setStorageHandler (JSON.bool true) [(lit "theme", lit "dark"), (modelKey, lit "1")]).storage
        (lit "theme") = some (lit "dark") :=
  ⟨by decide,
    (C6_other_keys_untouched [(lit "theme", lit "dark"), (modelKey, lit "1")] (lit "theme")
      (by decide) (JSON.bool true)).1.2.1⟩

/-- C7, as stated, fails: the empty string is not a JSON text, yet with the
empty string stored under `"model"` the script does not fail: it starts the
application with the flags `null`. -/
theorem C7_empty_entry_does_not_stop_startup :
    localStorage.getItem [(modelKey, [])] modelKey = some [] ∧
      JSON.parse [] = Except.error JSError.syntaxError ∧
      (startup [(modelKey, [])]).result = Except.ok JSON.null ∧
      Call.elmMainInit JSON.null ∈ (startup [(modelKey, [])]).calls := by
  refine ⟨by decide, by rfl, ?_, ?_⟩
  · rw [startup_of_falsy _ (by decide)]
  · rw [startup_of_falsy _ (by decide)]
    simp [startApp]

/-- C7, amended: when the entry under `"model"` is a non-empty text that is
not a JSON text, the script ends with the decoding error right after
`getItem` and `JSON.parse`: `Elm.Main.init` is not called, no subscription is
made, `registerServiceWorker()` is not called and storage is as it was. -/
theorem C7_malformed_entry_stops_startup (store : Storage) (text : JSString) (err : JSError)
    (h : localStorage.getItem store modelKey = some text) (hne : text ≠ [])
    (hp : JSON.parse text = Except.error err) :
    (startup store).result = Except.error err ∧
      (startup store).calls = [Call.getItem modelKey, Call.jsonParse text] ∧
      initFlags (startup store).calls = [] ∧
      (∀ port, Call.subscribe port ∉ (startup store).calls) ∧
      Call.registerServiceWorker ∉ (startup store).calls ∧
      (startup store).storage = store := by
  rw [startup_of_text store text h hne, hp]
  simp [initFlags]

/-- Witness for C7: the entry `{"count":` is cut short. -/
theorem C7_malformed_entry_stops_startup_witness :
    localStorage.getItem [(modelKey, lit "\x7b\"count\":")] modelKey
        = some (lit "\x7b\"count\":") ∧
      lit "\x7b\"count\":" ≠ [] ∧
      JSON.parse (lit "\x7b\"count\":") = Except.error JSError.syntaxError ∧
      (startup [(modelKey, lit "\x7b\"count\":")]).calls =
        [Call.getItem modelKey, Call.jsonParse (lit "\x7b\"count\":")] :=
  ⟨by decide, by decide, by rfl,
    (C7_malformed_entry_stops_startup [(modelKey, lit "\x7b\"count\":")]
      (lit "\x7b\"count\":") JSError.syntaxError (by decide) (by decide) (by rfl)).2.1⟩

/-- C8, as stated, fails: on an empty storage the script succeeds, and its
calls are not the five listed ones alone: between `getItem` and
`Elm.Main.init` it looks up the element `root`. -/
theorem C8_trace_has_the_root_lookup :
    (startup []).result = Except.ok JSON.null ∧
      (startup []).calls ≠
        [Call.getItem modelKey, Call.elmMainInit JSON.null, Call.subscribe Port.setStorage,
          Call.subscribe Port.removeStorage, Call.registerServiceWorker] ∧
      Call.getElementById rootId ∈ (startup []).calls := by
  rw [startup_of_falsy _ (by decide)]
  simp [startApp]

/-- C8, amended: in every successful run of the script the calls are, in this
order, one `getItem("model")`, one `JSON.parse` of the stored text when that
text is not empty, one lookup of the element `root`, one `Elm.Main.init` with
the computed flags, one subscription to `setStorage`, one to
`removeStorage`, and one `registerServiceWorker()`. -/
theorem C8_startup_order (store : Storage) (flags : JSON)
    (h : (startup store).result = Except.ok flags) :
    ((truthy (localStorage.getItem store modelKey) = false ∧ flags = JSON.null ∧
        (startup store).calls =
          [Call.getItem modelKey, Call.getElementById rootId, Call.elmMainInit flags,
            Call.subscribe Port.setStorage, Call.subscribe Port.removeStorage,
            Call.registerServiceWorker]) ∨
      (∃ text, localStorage.getItem store modelKey = some text ∧ text ≠ [] ∧
        JSON.parse text = Except.ok flags ∧
        (startup store).calls =
          [Call.getItem modelKey, Call.jsonParse text, Call.getElementById rootId,
            Call.elmMainInit flags, Call.subscribe Port.setStorage,
            Call.subscribe Port.removeStorage, Call.registerServiceWorker])) := by
  cases hg : localStorage.getItem store modelKey with
  | none =>
    left
    rw [startup_of_falsy store (by rw [hg]; rfl)] at h ⊢
    simp only [Except.ok.injEq] at h
    subst h
    exact ⟨rfl, rfl, rfl⟩
  | some text =>
    by_cases hne : text = []
    · left
      subst hne
      rw [startup_of_falsy store (by rw [hg]; rfl)] at h ⊢
      simp only [Except.ok.injEq] at h
      subst h
      exact ⟨rfl, rfl, rfl⟩
    · right
      refine ⟨text, rfl, hne, ?_⟩
      rw [startup_of_text store text hg hne] at h ⊢
      cases hp : JSON.parse text with
      | error e => rw [hp] at h; simp at h
      | ok v =>
        rw [hp] at h
        simp only [Except.ok.injEq] at h
        subst h
        exact ⟨rfl, rfl⟩

/-- Witness for C8: the script on a storage holding the entry `[true]`. -/
theorem C8_startup_order_witness :
    (startup [(modelKey, lit "[true]")]).result = Except.ok (JSON.arr [JSON.bool true]) ∧
      ((truthy (localStorage.getItem [(modelKey, lit "[true]")] modelKey) = false ∧
        JSON.arr [JSON.bool true] = JSON.null ∧
        (startup [(modelKey, lit "[true]")]).calls =
          [Call.getItem modelKey, Call.getElementById rootId,
            Call.elmMainInit (JSON.arr [JSON.bool true]),
            Call.subscribe Port.setStorage, Call.subscribe Port.removeStorage,
            Call.registerServiceWorker]) ∨
      (∃ text, localStorage.getItem [(modelKey, lit "[true]")] modelKey = some text ∧
        text ≠ [] ∧ JSON.parse text = Except.ok (JSON.arr [JSON.bool true]) ∧
        (startup [(modelKey, lit "[true]")]).calls =
          [Call.getItem modelKey, Call.jsonParse text, Call.getElementById rootId,
            Call.elmMainInit (JSON.arr [JSON.bool true]), Call.subscribe Port.setStorage,
            Call.subscribe Port.removeStorage, Call.registerServiceWorker])) :=
  ⟨by rfl, C8_startup_order [(modelKey, lit "[true]")] (JSON.arr [JSON.bool true]) (by rfl)⟩

theorem reads_append (a b : List Call) : reads (a ++ b) = reads a ++ reads b := by
  induction a with
  | nil => rfl
  | cons c t ih => cases c <;> simp [reads, ih]

theorem mutations_append (a b : List Call) :
    mutations (a ++ b) = mutations a ++ mutations b := by
  induction a with
  | nil => rfl
  | cons c t ih => cases c <;> simp [mutations, ih]

theorem handle_calls (sig : Signal) (st : Storage) :
    reads (handle sig st).calls = [] ∧ mutations (handle sig st).calls = [signalEffect sig] := by
  cases sig <;>
    simp [handle, setStorageHandler, removeStorageHandler, reads, mutations, signalEffect]

theorem handleAll_calls (sigs : List Signal) (st : Storage) :
    reads (handleAll sigs st).calls = [] ∧
      mutations (handleAll sigs st).calls = sigs.map signalEffect := by
  induction sigs generalizing st with
  | nil => simp [handleAll, reads, mutations]
  | cons sig t ih =>
    simp only [handleAll, reads_append, mutations_append, (handle_calls sig st).1,
      (handle_calls sig st).2, (ih _).1, (ih _).2]
    simp

theorem startup_calls (store : Storage) :
    reads (startup store).calls = [modelKey] ∧ mutations (startup store).calls = [] ∧
      (startup store).calls.head? = some (Call.getItem modelKey) ∧
      (startup store).storage = store := by
  unfold startup
  simp only
  split
  · split
    · split <;> simp [reads, mutations, startApp]
    · simp [reads, mutations, startApp]
  · simp [reads, mutations, startApp]

theorem foldl_applyCall_of_mutations_nil (calls : List Call) (store : Storage)
    (h : mutations calls = []) : calls.foldl applyCall store = store := by
  induction calls generalizing store with
  | nil => rfl
  | cons c t ih =>
    cases c <;> simp [mutations] at h <;> simpa [applyCall] using ih store h

theorem handle_storage (sig : Signal) (st : Storage) :
    (handle sig st).storage = (handle sig st).calls.foldl applyCall st := by
  cases sig <;> simp [handle, setStorageHandler, removeStorageHandler, applyCall]

theorem handleAll_storage (sigs : List Signal) (st : Storage) :
    (handleAll sigs st).storage = (handleAll sigs st).calls.foldl applyCall st := by
  induction sigs generalizing st with
  | nil => rfl
  | cons sig t ih =>
    simp only [handleAll, List.foldl_append]
    rw [← handle_storage sig st]
    exact ih _

/-- C9 (storage access): in every run, the script and then any finite
sequence of signals, storage is read once, under `"model"`, by the first call
of the script; the script itself makes no `setItem` or `removeItem` call and
leaves storage as it was; each signal makes exactly one such call, a
`setItem` on `"model"` for `setStorage` and a `removeItem` on `"model"` for
`removeStorage`, and no read; so the changes of storage in the run are those
of the signals, one for one and in order (none when the script failed, since
no handler is registered then), and the final storage is the initial one
with these calls applied. -/
theorem C9_storage_access (store : Storage) (sigs : List Signal) :
    reads (run store sigs).calls = [modelKey] ∧
      (run store sigs).calls.head? = some (Call.getItem modelKey) ∧
      (startup store).storage = store ∧
      mutations (startup store).calls = [] ∧
      (∀ sig st, reads (handle sig st).calls = [] ∧
        mutations (handle sig st).calls = [signalEffect sig]) ∧
      mutations (run store sigs).calls =
        (match (startup store).result with
          | Except.ok _ => sigs.map signalEffect
          | Except.error _ => []) ∧
      (run store sigs).storage = (run store sigs).calls.foldl applyCall store := by
  obtain ⟨h1, h2, h3, h4⟩ := startup_calls store
  have h5 : (startup store).calls ≠ [] := by
    intro e
    rw [e] at h3
    simp at h3
  have h6 := foldl_applyCall_of_mutations_nil _ store h2
  refine ⟨?_, ?_, h4, h2, handle_calls, ?_, ?_⟩
  · unfold run
    simp only
    split
    · simp [reads_append, h1, (handleAll_calls sigs _).1]
    · simpa using h1
  · unfold run
    simp only
    split
    · simp only
      rw [List.head?_append_of_ne_nil _ h5]
      exact h3
    · exact h3
  · unfold run
    simp only
    split
    · rename_i flags hr
      simp [mutations_append, h2, (handleAll_calls sigs _).2, hr]
    · rename_i err hr
      simp [h2, hr]
  · unfold run
    simp only
    split
    · simp only [List.foldl_append, h6]
      rw [h4]
      exact handleAll_storage sigs store
    · simp only [h6, h4]

/-- A number that is not finite is outside JSON: the handler stores `NaN` as
the text `null`, and the script then passes `null`. -/
theorem nan_is_saved_as_null :
    localStorage.getItem (setStorageHandler (JSON.num JNum.nan) []).storage modelKey
        = some (lit "null") ∧
      initFlags (startup (setStorageHandler (JSON.num JNum.nan) []).storage).calls
        = [JSON.null] :=
  ⟨by decide, by rfl⟩

/-- C10 (a saved `null` looks like no save): the `setStorage` handler with
`null` stores the text `null`, and the script then passes the flags `null`,
as it does on a storage with no entry; for every other JSON value `V` the
flags after a save of `V` are `V` (with `+0` for a `-0`), which is not
`null`. -/
theorem C10_saved_null_is_like_absent (store store0 : Storage) (V : JSON)
    (h0 : localStorage.getItem store0 modelKey = none) (hV : V.wf = true)
    (hne : V ≠ JSON.null) :
    localStorage.getItem (setStorageHandler JSON.null store).storage modelKey
        = some (lit "null") ∧
      initFlags (startup (setStorageHandler JSON.null store).storage).calls = [JSON.null] ∧
      initFlags (startup store0).calls = [JSON.null] ∧
      initFlags (startup (setStorageHandler V store).storage).calls = [V.plusZero] ∧
      initFlags (startup (setStorageHandler V store).storage).calls ≠ [JSON.null] := by
  have h1 := (initFlags_after_save store JSON.null (by rfl))
  have h2 := (initFlags_after_save store V hV)
  refine ⟨?_, h1, ?_, h2, ?_⟩
  · simp only [setStorageHandler, getItem_setItem_same]
    rfl
  · rw [startup_of_falsy store0 (by rw [h0]; rfl)]
    simp [initFlags, startApp]
  · rw [h2]
    simpa using JSON.plusZero_ne_null V hne

/-- Witness for C10: the empty object, the empty array, the empty string,
`false`, `0` and `-0`, each saved over an older entry. -/
theorem C10_saved_null_is_like_absent_witness :
    localStorage.getItem [(lit "theme", lit "dark")] modelKey = none ∧
      initFlags (startup (setStorageHandler (JSON.obj []) [(modelKey, lit "1")]).storage).calls
        ≠ [JSON.null] ∧
      initFlags (startup (setStorageHandler (JSON.arr []) [(modelKey, lit "1")]).storage).calls
        ≠ [JSON.null] ∧
      initFlags (startup (setStorageHandler (JSON.str []) [(modelKey, lit "1")]).storage).calls
        ≠ [JSON.null] ∧
      initFlags (startup
        (setStorageHandler (JSON.bool false) [(modelKey, lit "1")]).storage).calls
        ≠ [JSON.null] ∧
      initFlags (startup
        (setStorageHandler (JSON.num (JNum.zero false)) [(modelKey, lit "1")]).storage).calls
        ≠ [JSON.null] ∧
      initFlags (startup
        (setStorageHandler (JSON.num (JNum.zero true)) [(modelKey, lit "1")]).storage).calls
        ≠ [JSON.null] :=
  ⟨by decide,
    (C10_saved_null_is_like_absent [(modelKey, lit "1")] [(lit "theme", lit "dark")]
      (JSON.obj []) (by decide) (by rfl) (by simp)).2.2.2.2,
    (C10_saved_null_is_like_absent [(modelKey, lit "1")] [(lit "theme", lit "dark")]
      (JSON.arr []) (by decide) (by rfl) (by simp)).2.2.2.2,
    (C10_saved_null_is_like_absent [(modelKey, lit "1")] [(lit "theme", lit "dark")]
      (JSON.str []) (by decide) (by rfl) (by simp)).2.2.2.2,
    (C10_saved_null_is_like_absent [(modelKey, lit "1")] [(lit "theme", lit "dark")]
      (JSON.bool false) (by decide) (by rfl) (by simp)).2.2.2.2,
    (C10_saved_null_is_like_absent [(modelKey, lit "1")] [(lit "theme", lit "dark")]
      (JSON.num (JNum.zero false)) (by decide) (by rfl) (by simp)).2.2.2.2,
    (C10_saved_null_is_like_absent [(modelKey, lit "1")] [(lit "theme", lit "dark")]
      (JSON.num (JNum.zero true)) (by decide) (by rfl) (by simp)).2.2.2.2⟩

end StorageBridge
